import Mathlib

/-!
Shallow embedding of the spreadsheet engine (files `sheet.cpp` / `cell.cpp`
and `formula.cpp`) together with proofs about its cell graph, its edit
operations and its formula layer.

Conventions of the embedding:
* machine doubles are represented by `Rat` (only control flow, never
  rounding, is at stake in the verified properties);
* C++ exceptions are represented by the explicit result type `OpResult`
  (`.exn`), undefined behaviour (dereferencing a null `unique_ptr`) by
  `.ub`, and a non-terminating recursion by `.hang`;
* `std::unordered_map<Position, std::unique_ptr<Cell>>` is an association
  list `List (Pos × Option Cell)`: an entry `(p, none)` is an entry whose
  `unique_ptr` holds `nullptr` (this is what `ClearCell` leaves behind),
  while a missing key is a missing entry;
* `std::unordered_set<Cell*>` adjacency sets become `Finset Pos`: the sheet
  owns cells at stable addresses keyed by position, so a live `Cell*` is
  identified with its position.
-/

/-- Position from `common.h` (not part of the sources).  Modelled from the
spec: a pair of integers with validity bounds `0 ≤ row < MAX_ROWS`,
`0 ≤ col < MAX_COLS`, bounds 16384 × 16384. -/
structure Pos where
  row : Int
  col : Int
deriving DecidableEq, Repr

def MAX_ROWS : Int := 16384

def MAX_COLS : Int := 16384

def Pos.IsValid (p : Pos) : Bool :=
  0 ≤ p.row && p.row < MAX_ROWS && 0 ≤ p.col && p.col < MAX_COLS

/-- FormulaError categories (`formula.cpp`): Ref, Value, Arithmetic. -/
inductive FormulaError where
  | Ref
  | Value
  | Arithmetic
deriving DecidableEq, Repr

/-- FormulaError::ToString from `formula.cpp`. -/
def FormulaError.ToString : FormulaError → String
  | .Ref => "#REF!"
  | .Value => "#VALUE!"
  | .Arithmetic => "#ARITHM!"

/-- FormulaInterface::Value = `std::variant<double, FormulaError>`; this is
the cache payload of a formula cell. -/
inductive FValue where
  | num (d : Rat)
  | err (e : FormulaError)
deriving DecidableEq, Repr

/-- The parsed-formula object produced by `ParseFormula`.  Modelled from the
spec: the `FormulaAST` sources are not part of the repository.  `expr` is
the canonical printed expression (`GetExpression`), `cells` is the raw
position list of the AST (`FormulaAST::GetCells`), which per the spec is in
source order and may contain invalid and duplicate positions. -/
structure FormulaObj where
  expr : String
  cells : List Pos
deriving DecidableEq, Repr

/-- The `std::unique` step of `Formula::GetReferencedCells`: it removes only
consecutive duplicate elements, one element per run surviving.  (C++ keeps
the first element of each run; dropping the earlier of two equal adjacent
elements instead produces the identical list, since the elements are
equal, and keeps the recursion structural.) -/
def uniqueConsecutive : List Pos → List Pos
  | [] => []
  | [a] => [a]
  | a :: b :: rest =>
      if a = b then uniqueConsecutive (b :: rest)
      else a :: uniqueConsecutive (b :: rest)

/-- Formula::GetReferencedCells from `formula.cpp`: keep the valid positions
of the AST cell list, then collapse consecutive duplicates
(`std::unique` + `resize`). -/
def Formula.GetReferencedCells (astCells : List Pos) : List Pos :=
  uniqueConsecutive (astCells.filter (fun p => p.IsValid))

/-- Cell::Impl bodies from `cell.cpp`: EmptyImpl, TextImpl, FormulaImpl.
The formula body carries its parsed formula and its mutable cache. -/
inductive CellImpl where
  | empty
  | text (s : String)
  | formula (f : FormulaObj) (cache : Option FValue)
deriving DecidableEq, Repr

/-- Impl::GetText (EmptyImpl returns "", TextImpl returns the raw text,
FormulaImpl returns FORMULA_SIGN + GetExpression). -/
def CellImpl.GetText : CellImpl → String
  | .empty => ""
  | .text s => s
  | .formula f _ => "=" ++ f.expr

/-- Impl::GetReferencedCells: the base (Empty/Text) returns `{}`;
FormulaImpl forwards to Formula::GetReferencedCells. -/
def CellImpl.GetReferencedCells : CellImpl → List Pos
  | .formula f _ => Formula.GetReferencedCells f.cells
  | _ => []

/-- Impl::IsCacheValid: the base returns true; FormulaImpl reports whether
the cache optional holds a value. -/
def CellImpl.IsCacheValid : CellImpl → Bool
  | .formula _ c => c.isSome
  | _ => true

/-- Impl::InvalidateCache: no-op on the base; FormulaImpl resets the
cache optional. -/
def CellImpl.InvalidateCache : CellImpl → CellImpl
  | .formula f _ => .formula f none
  | i => i

/-- A Cell (`cell.h`): body, incoming pointers (`l_nodes_`, cells whose
formulas read this cell) and outgoing pointers (`r_nodes_`, cells this
cell's formula reads), pointers identified with positions. -/
structure Cell where
  impl : CellImpl
  l_nodes : Finset Pos
  r_nodes : Finset Pos
deriving DecidableEq

/-- Cell::Cell(Sheet&): EmptyImpl body, empty adjacency. -/
def Cell.new : Cell :=
  { impl := .empty, l_nodes := ∅, r_nodes := ∅ }

/-- Lexicographic order on positions (the spec orders positions
lexicographically by (row, col)); it serves as the deterministic stand-in
for the unspecified iteration order of the C++ unordered containers. -/
instance : LinearOrder Pos :=
  LinearOrder.lift' (fun p => toLex (p.row, p.col))
    (fun p q h => by
      cases p; cases q
      simpa [Prod.ext_iff, Pos.mk.injEq] using congrArg (fun x => ofLex x) h)

/-- Iteration over an adjacency set, in the order fixed above. -/
def posList (t : Finset Pos) : List Pos :=
  t.sort (· ≤ ·)

/-- The sheet: `cells_`, an association list standing for the unordered map
from Position to `unique_ptr<Cell>`; `(p, none)` is an entry holding
`nullptr`. -/
structure Sheet where
  cells : List (Pos × Option Cell)
deriving DecidableEq

def Sheet.empty : Sheet := ⟨[]⟩

/-- Map lookup (`cells_.find`): first entry with the given key. -/
def lookupCell : List (Pos × Option Cell) → Pos → Option (Option Cell)
  | [], _ => none
  | (q, c) :: rest, p => if p = q then some c else lookupCell rest p

/-- In-place overwrite of the first entry with the given key; no effect when
the key is absent. -/
def updateCell : List (Pos × Option Cell) → Pos → Option Cell →
    List (Pos × Option Cell)
  | [], _, _ => []
  | (q, c) :: rest, p, c' =>
      if p = q then (q, c') :: rest else (q, c) :: updateCell rest p c'

/-- Whether the map has an entry at `p` holding a non-null cell. -/
def Sheet.isLive (s : Sheet) (p : Pos) : Bool :=
  match lookupCell s.cells p with
  | some (some _) => true
  | _ => false

/-- The cell at `p` when the entry holds one. -/
def Sheet.cellAt (s : Sheet) (p : Pos) : Option Cell :=
  match lookupCell s.cells p with
  | some (some c) => some c
  | _ => none

/-- Apply `f` to the cell stored at `p` (no effect on null or missing
entries). -/
def Sheet.modifyCell (s : Sheet) (p : Pos) (f : Cell → Cell) : Sheet :=
  match lookupCell s.cells p with
  | some (some c) => ⟨updateCell s.cells p (some (f c))⟩
  | _ => s

/-- The exceptions of `common.h` that the modelled operations raise. -/
inductive Exn where
  | invalidPosition
  | formulaError
  | circularDependency
deriving DecidableEq, Repr

/-- Outcome of a (possibly mutating) sheet operation.  `.exn` carries the
sheet state observable after the exception propagates; `.ub` marks a null
`unique_ptr` dereference (undefined behaviour, no defined post-state);
`.hang` marks exhaustion of the recursion fuel that stands in for a
non-terminating recursion. -/
inductive OpResult (α : Type) where
  | ok (v : α) (s : Sheet)
  | exn (e : Exn) (s : Sheet)
  | ub
  | hang
deriving DecidableEq

/-- Sheet::GetCellPtr (const): validates the position
(`InvalidPositionException`), then returns the stored pointer — `none`
stands for `nullptr` (entry missing, or entry holding a null pointer). -/
def Sheet.GetCellPtr (s : Sheet) (pos : Pos) : Except Exn (Option Cell) :=
  if !pos.IsValid then .error .invalidPosition
  else
    match lookupCell s.cells pos with
    | none => .ok none
    | some c => .ok c

/-- Cell::CreateImpl from `cell.cpp`: empty text gives EmptyImpl; text of
length at least 2 starting with FORMULA_SIGN gives FormulaImpl (whose
construction runs `ParseFormula` on the text after the sign and raises
`FormulaException` when parsing fails); anything else gives TextImpl. -/
def Cell.CreateImpl (parse : String → Option FormulaObj) (text : String) :
    Except Exn CellImpl :=
  if text.isEmpty then .ok .empty
  else if text.length > 1 && text.front == '=' then
    match parse (text.drop 1) with
    | some f => .ok (.formula f none)
    | none => .error .formulaError
  else .ok (.text text)

/-- Incoming adjacency of the cell at `p` (empty for a missing or null
entry). -/
def Sheet.lNodesOf (s : Sheet) (p : Pos) : Finset Pos :=
  match s.cellAt p with
  | some c => c.l_nodes
  | none => ∅

/-- Fuel bound for the cycle-check traversal: the C++ loop performs at most
one pop per push and pushes each node at most once per incoming edge, so
nodes + edges + 2 iterations always suffice; the model returns the
conservative answer `true` when the fuel is exhausted (unreachable). -/
def Sheet.cycleFuel (s : Sheet) : Nat :=
  s.cells.foldl
    (fun n pc => n + 1 + (match pc.2 with | some c => c.l_nodes.card | none => 0))
    2

/-- The `while (!to_visit.empty())` loop of
Cell::WouldIntroduceCircularDependency: pop `current`, mark it visited,
succeed when it belongs to `referenced`, otherwise push its not-yet-visited
incoming neighbours. -/
def Cell.cycleSearch (s : Sheet) (referenced : Finset Pos) :
    Nat → Finset Pos → List Pos → Bool
  | 0, _, _ => true
  | _ + 1, _, [] => false
  | fuel + 1, visited, current :: rest =>
      let visited' := insert current visited
      if current ∈ referenced then true
      else
        let nbrs := (posList (s.lNodesOf current)).filter (fun q => q ∉ visited')
        Cell.cycleSearch s referenced fuel visited' (nbrs ++ rest)

/-- Cell::WouldIntroduceCircularDependency from `cell.cpp`: no references
means no cycle; otherwise resolve the references through
`Sheet::GetCellPtr` (the C++ set holds `Cell*` and may contain `nullptr`
for unmaterialized positions — `nullptr` can never equal a visited live
cell, so only live positions are kept) and run a depth-first traversal from
`self` along incoming edges. -/
def Cell.WouldIntroduceCircularDependency (s : Sheet) (self : Pos)
    (new_impl : CellImpl) : Bool :=
  let refs := new_impl.GetReferencedCells
  if refs.isEmpty then false
  else
    let referenced : Finset Pos := (refs.filter (fun p => s.isLive p)).toFinset
    Cell.cycleSearch s referenced s.cycleFuel ∅ [self]

/-- The `for (Cell* incoming : l_nodes_)` loop of
Cell::InvalidateCacheRecursive, abstracted over the loop body `f`: run `f`
on each element in turn, threading the sheet. -/
def invalidateFold (f : Sheet → Pos → Option Sheet) :
    Sheet → List Pos → Option Sheet
  | s, [] => some s
  | s, q :: qs =>
      match f s q with
      | some s' => invalidateFold f s' qs
      | none => none

/-- Cell::InvalidateCacheRecursive from `cell.cpp`: when the cache is valid
or `force` is set, drop this cell's cache and recurse (without force) into
every incoming neighbour.  The C++ recursion has no visited set and
terminates only because reachable graphs are acyclic; the model uses fuel
(paying one unit per recursion level) and reports `none` when it is
exhausted. -/
def Cell.InvalidateCacheRecursive : Nat → Sheet → Pos → Bool → Option Sheet
  | 0, _, _, _ => none
  | fuel + 1, s, p, force =>
      match s.cellAt p with
      | none => some s
      | some c =>
          if c.impl.IsCacheValid || force then
            invalidateFold
              (fun st q => Cell.InvalidateCacheRecursive fuel st q false)
              (s.modifyCell p
                (fun c0 => { c0 with impl := c0.impl.InvalidateCache }))
              (posList c.l_nodes)
          else some s
termination_by structural fuel => fuel

/-- The incoming-neighbour loop at a fixed recursion level. -/
def Cell.invalidateIncoming (fuel : Nat) : Sheet → List Pos → Option Sheet :=
  invalidateFold (fun st q => Cell.InvalidateCacheRecursive fuel st q false)

/-- The edge insertion at the end of the `UpdateDependencies` loop body:
`r_nodes_.insert(outgoing); outgoing->l_nodes_.insert(this)`. -/
def Cell.addDependencyEdge (s : Sheet) (self pos : Pos) : Sheet :=
  let s1 := s.modifyCell self (fun c => { c with r_nodes := insert pos c.r_nodes })
  s1.modifyCell pos (fun c => { c with l_nodes := insert self c.l_nodes })

/-- The `for (Cell* outgoing : r_nodes_) outgoing->l_nodes_.erase(this)`
loop of Cell::Set. -/
def Cell.eraseFromIncoming (s : Sheet) (self : Pos) : List Pos → Sheet
  | [] => s
  | d :: ds =>
      Cell.eraseFromIncoming
        (s.modifyCell d (fun c => { c with l_nodes := c.l_nodes.erase self }))
        self ds

/-- Exception/UB-propagating sequencing of sheet operations (the implicit
control flow of C++ exceptions). -/
def OpResult.bindU (r : OpResult Unit) (f : Sheet → OpResult Unit) :
    OpResult Unit :=
  match r with
  | .ok _ s => f s
  | .exn e s => .exn e s
  | .ub => .ub
  | .hang => .hang

mutual

/-- Sheet::SetCell from `sheet.cpp`: validate the position; emplace a fresh
cell when the key is absent (an entry holding `nullptr` — as left behind by
ClearCell — is NOT absent for `find`); then call `Set` through
`cells_.at(pos)`, which dereferences the stored pointer: on a null entry
this is undefined behaviour.  The fuel bounds the mutual recursion through
`UpdateDependencies` (the inner call always carries empty text, so fuel 1
suffices from the public surface). -/
def Sheet.SetCell (fuel : Nat) (parse : String → Option FormulaObj)
    (s : Sheet) (pos : Pos) (text : String) : OpResult Unit :=
  if !pos.IsValid then .exn .invalidPosition s
  else
    let s1 : Sheet :=
      match lookupCell s.cells pos with
      | none => ⟨s.cells ++ [(pos, some Cell.new)]⟩
      | some _ => s
    match lookupCell s1.cells pos with
    | some (some _) => Cell.Set fuel parse s1 pos text
    | _ => .ub
termination_by (fuel, 4, 0)

/-- Cell::Set from `cell.cpp`: build the prospective body (FormulaException
surfaces unchanged); run the cycle check (CircularDependencyException
surfaces unchanged); then install the body, remove `self` from the incoming
sets of its old outgoing targets, clear the outgoing set, rebuild the
dependency edges, and invalidate caches recursively with force. -/
def Cell.Set (fuel : Nat) (parse : String → Option FormulaObj)
    (s : Sheet) (self : Pos) (text : String) : OpResult Unit :=
  match Cell.CreateImpl parse text with
  | .error e => .exn e s
  | .ok impl =>
      if Cell.WouldIntroduceCircularDependency s self impl then
        .exn .circularDependency s
      else
        match s.cellAt self with
        | none => .ub
        | some c0 =>
            let s1 := s.modifyCell self (fun c => { c with impl := impl })
            let s2 := Cell.eraseFromIncoming s1 self (posList c0.r_nodes)
            let s3 := s2.modifyCell self (fun c => { c with r_nodes := ∅ })
            match Cell.UpdateDependencies fuel parse s3 self
                impl.GetReferencedCells with
            | .ok _ s4 =>
                match Cell.InvalidateCacheRecursive (s4.cells.length + 2)
                    s4 self true with
                | some s5 => .ok () s5
                | none => .hang
            | r => r
termination_by (fuel, 3, 0)

/-- One iteration of the Cell::UpdateDependencies loop body, up to the edge
insertion: `Cell* outgoing = sheet_.GetCellPtr(pos); if (!outgoing) {
sheet_.SetCell(pos, ""); outgoing = sheet_.GetCellPtr(pos); }`.  A normal
return hands the caller the sheet in which `pos` now resolves to a live
cell; a pointer that is still null after materialization would be
dereferenced by the subsequent `outgoing->l_nodes_.insert(this)`
(undefined behaviour). -/
def Cell.resolveOutgoing (fuel : Nat) (parse : String → Option FormulaObj)
    (s : Sheet) (pos : Pos) : OpResult Unit :=
  match s.GetCellPtr pos with
  | .error e => .exn e s
  | .ok (some _) => .ok () s
  | .ok none => Cell.materializeOutgoing fuel parse s pos
termination_by (fuel, 1, 0)

/-- The materialization step of the Cell::UpdateDependencies loop body:
`sheet_.SetCell(pos, ""); outgoing = sheet_.GetCellPtr(pos);` — run when
`GetCellPtr` returned null.  The fuel pays for the nested `SetCell` call
(whose text is always empty, so it makes no further nested call). -/
def Cell.materializeOutgoing (fuel : Nat) (parse : String → Option FormulaObj)
    (s : Sheet) (pos : Pos) : OpResult Unit :=
  match fuel with
  | 0 => .hang
  | fuel' + 1 =>
      (Sheet.SetCell fuel' parse s pos "").bindU fun s1 =>
        match s1.GetCellPtr pos with
        | .ok (some _) => .ok () s1
        | _ => .ub
termination_by (fuel, 0, 0)

/-- Cell::UpdateDependencies from `cell.cpp`: for each referenced position,
resolve it through `GetCellPtr` (materializing an empty cell via
`sheet_.SetCell(pos, "")` when the pointer is null, see
`Cell.resolveOutgoing`), then insert the mirrored pair of edges
(`r_nodes_.insert(outgoing); outgoing->l_nodes_.insert(this)`) and continue
with the remaining references. -/
def Cell.UpdateDependencies (fuel : Nat) (parse : String → Option FormulaObj)
    (s : Sheet) (self : Pos) (refs : List Pos) : OpResult Unit :=
  match refs with
  | [] => .ok () s
  | pos :: rest =>
      (Cell.resolveOutgoing fuel parse s pos).bindU fun s1 =>
        Cell.UpdateDependencies fuel parse
          (Cell.addDependencyEdge s1 self pos) self rest
termination_by (fuel, 2, refs.length)

end

/-- Cell::Clear from `cell.cpp`: `Set("")`. -/
def Cell.Clear (parse : String → Option FormulaObj) (s : Sheet) (self : Pos) :
    OpResult Unit :=
  Cell.Set 1 parse s self ""

/-- Sheet::ClearCell from `sheet.cpp`: validate; when the entry exists and
holds a cell, `Clear` it and then reset the pointer (leaving a null entry!)
when the cell is no longer referenced (`IsReferenced` is
`!l_nodes_.empty()`). -/
def Sheet.ClearCell (parse : String → Option FormulaObj) (s : Sheet)
    (pos : Pos) : OpResult Unit :=
  if !pos.IsValid then .exn .invalidPosition s
  else
    match lookupCell s.cells pos with
    | some (some _) =>
        match Cell.Clear parse s pos with
        | .ok _ s' =>
            match lookupCell s'.cells pos with
            | some (some c') =>
                if c'.l_nodes = ∅ then .ok () ⟨updateCell s'.cells pos none⟩
                else .ok () s'
            | _ => .ok () s'
        | r => r
    | _ => .ok () s

/-- Size from `common.h`. -/
structure Size where
  rows : Int
  cols : Int
deriving DecidableEq, Repr

/-- Sheet::GetPrintableSize from `sheet.cpp`: fold over the map, counting
each non-null entry whose text is non-empty. -/
def Sheet.GetPrintableSize (s : Sheet) : Size :=
  s.cells.foldl
    (fun acc pc =>
      match pc.2 with
      | some c =>
          if c.impl.GetText.isEmpty then acc
          else { rows := max acc.rows (pc.1.row + 1),
                 cols := max acc.cols (pc.1.col + 1) }
      | none => acc)
    { rows := 0, cols := 0 }

/-- The public Sheet::SetCell entry point (fuel 1 covers the single level of
materialization recursion, whose inner text is always empty). -/
def SheetSetCell (parse : String → Option FormulaObj) (s : Sheet) (pos : Pos)
    (text : String) : OpResult Unit :=
  Sheet.SetCell 1 parse s pos text

/-- The public Sheet::ClearCell entry point. -/
def SheetClearCell (parse : String → Option FormulaObj) (s : Sheet)
    (pos : Pos) : OpResult Unit :=
  Sheet.ClearCell parse s pos

/-- CellInterface::Value = `std::variant<std::string, double, FormulaError>`
(the observable value of a cell). -/
inductive CVal where
  | str (s : String)
  | num (d : Rat)
  | err (e : FormulaError)
deriving DecidableEq, Repr

/-- Formula::ConvertStringToDouble from `formula.cpp`: an empty string
yields 0 without touching the stream; otherwise the string must read as one
complete double (`in >> result` succeeding with the stream at eof) —
abstracted by `parseNum` — and any failure raises `Value`. -/
def Formula.ConvertStringToDouble (parseNum : String → Option Rat)
    (value : String) : Except FormulaError Rat :=
  if value.isEmpty then .ok 0
  else
    match parseNum value with
    | some r => .ok r
    | none => .error .Value

/-- Formula::EvaluateCell from `formula.cpp`: invalid position raises Ref;
missing cell yields 0; then the checks run in source order — a double value
is returned, a string value goes through ConvertStringToDouble, and the
remaining variant alternative (a FormulaError) is re-raised.  `view`
abstracts `sheet.GetCell(p)` composed with `cell->GetValue()`. -/
def Formula.EvaluateCell (parseNum : String → Option Rat)
    (view : Pos → Option CVal) (p : Pos) : Except FormulaError Rat :=
  if !p.IsValid then .error .Ref
  else
    match view p with
    | none => .ok 0
    | some (.num d) => .ok d
    | some (.str st) => Formula.ConvertStringToDouble parseNum st
    | some (.err e) => .error e

/-- The `evaluate_cell` case list of spec §4.4, written from the spec words
(not from the code) for the refinement theorem of claim C5. -/
def evaluateCellSpec (parseNum : String → Option Rat)
    (view : Pos → Option CVal) (p : Pos) : Except FormulaError Rat :=
  if ¬ (p.IsValid = true) then .error .Ref
  else
    match view p with
    | none => .ok 0
    | some (.num d) => .ok d
    | some (.str st) =>
        if st = "" then .ok 0
        else
          match parseNum st with
          | some r => .ok r
          | none => .error .Value
    | some (.err e) => .error e

/-- Formula::Evaluate from `formula.cpp`: run the AST (`exec` abstracts
`ast_.Execute(args)`, which either produces a double or raises a
FormulaError); a raised FormulaError is caught and returned as the value,
so the function itself never raises. -/
def Formula.Evaluate (exec : Except FormulaError Rat) : FValue :=
  match exec with
  | .ok d => .num d
  | .error e => .err e

/-- Cell::FormulaImpl::GetValue from `cell.cpp`: when the cache is absent,
prime it with one evaluation; then evaluate AGAIN unconditionally and
return that fresh value (converted to the cell-value variant).  `exec`
abstracts the AST execution against the current sheet (deterministic within
one call); the third component counts the `Evaluate` calls performed. -/
def FormulaImpl.GetValue (exec : Except FormulaError Rat)
    (cache : Option FValue) : CVal × Option FValue × Nat :=
  let primed : Option FValue × Nat :=
    if cache.isSome then (cache, 0) else (some (Formula.Evaluate exec), 1)
  match Formula.Evaluate exec with
  | .num d => (.num d, primed.1, primed.2 + 1)
  | .err e => (.err e, primed.1, primed.2 + 1)

/-- Concrete positions used by the concrete executions below. -/
def posA1 : Pos := ⟨0, 0⟩
def posB1 : Pos := ⟨0, 1⟩
def posAAA1 : Pos := ⟨0, 702⟩
def posZZZ9999 : Pos := ⟨9998, 18277⟩
/-- A concrete `ParseFormula` table used by the concrete executions below:
it resolves the expressions `A1`, `B1` and `ZZZ9999` and rejects everything
else. -/
def parseDemo : String → Option FormulaObj := fun e =>
  if e = "A1" then some ⟨"A1", [posA1]⟩
  else if e = "B1" then some ⟨"B1", [posB1]⟩
  else if e = "ZZZ9999" then some ⟨"ZZZ9999", [posZZZ9999]⟩
  else none

/-! ### Pointwise lemmas about the map primitives -/

theorem lookupCell_updateCell (l : List (Pos × Option Cell)) (p : Pos)
    (v : Option Cell) (q : Pos) :
    lookupCell (updateCell l p v) q =
      if q = p then
        (match lookupCell l p with
         | some _ => some v
         | none => none)
      else lookupCell l q := by
  induction l with
  | nil => simp [lookupCell, updateCell]
  | cons hd tl ih =>
      obtain ⟨a, c⟩ := hd
      by_cases hpa : p = a
      · subst hpa
        by_cases hqp : q = p <;> simp [lookupCell, updateCell, hqp]
      · by_cases hqa : q = a
        · subst hqa
          simp [lookupCell, updateCell, hpa, Ne.symm hpa,
            (by intro h; exact hpa h.symm : ¬ q = p)]
        · simp [lookupCell, updateCell, hpa, hqa, ih]

theorem updateCell_lookup_eq (l : List (Pos × Option Cell)) (p : Pos)
    (v : Option Cell) (h : lookupCell l p = some v) :
    updateCell l p v = l := by
  induction l with
  | nil => simp [updateCell]
  | cons hd tl ih =>
      obtain ⟨a, c⟩ := hd
      by_cases hpa : p = a
      · subst hpa
        simp [lookupCell] at h
        simp [updateCell, h]
      · simp [lookupCell, hpa] at h
        simp [updateCell, hpa, ih h]

theorem lookupCell_append_absent (l : List (Pos × Option Cell)) (p : Pos)
    (v : Option Cell) (q : Pos) (h : lookupCell l p = none) :
    lookupCell (l ++ [(p, v)]) q =
      if q = p then some v else lookupCell l q := by
  induction l with
  | nil => by_cases hqp : q = p <;> simp [lookupCell, hqp]
  | cons hd tl ih =>
      obtain ⟨a, c⟩ := hd
      by_cases hpa : p = a
      · subst hpa; simp [lookupCell] at h
      · simp [lookupCell, hpa] at h
        by_cases hqa : q = a
        · subst hqa
          simp [lookupCell]
          rw [if_neg (fun hh => hpa hh.symm)]
        · simp [lookupCell, hqa, ih h]

theorem lookup_modify (s : Sheet) (p : Pos) (f : Cell → Cell) (q : Pos) :
    lookupCell (s.modifyCell p f).cells q =
      if q = p then
        (match lookupCell s.cells p with
         | some (some c) => some (some (f c))
         | x => x)
      else lookupCell s.cells q := by
  unfold Sheet.modifyCell
  by_cases hqp : q = p
  · subst hqp
    rcases hx : lookupCell s.cells q with _ | ⟨_ | c⟩ <;>
      simp [hx, lookupCell_updateCell]
  · rcases hx : lookupCell s.cells p with _ | ⟨_ | c⟩ <;>
      simp [hx, hqp, lookupCell_updateCell]

theorem isLive_modify (s : Sheet) (p : Pos) (f : Cell → Cell) (q : Pos) :
    (s.modifyCell p f).isLive q = s.isLive q := by
  unfold Sheet.isLive
  rw [lookup_modify]
  by_cases hqp : q = p
  · subst hqp
    rcases hx : lookupCell s.cells q with _ | ⟨_ | c⟩ <;> simp [hx]
  · simp [hqp]

theorem cellAt_modify (s : Sheet) (p : Pos) (f : Cell → Cell) (q : Pos) :
    (s.modifyCell p f).cellAt q =
      if q = p then (s.cellAt p).map f else s.cellAt q := by
  unfold Sheet.cellAt
  rw [lookup_modify]
  by_cases hqp : q = p
  · subst hqp
    rcases hx : lookupCell s.cells q with _ | ⟨_ | c⟩ <;> simp [hx]
  · simp [hqp]

theorem lookup_modify_none (s : Sheet) (p : Pos) (f : Cell → Cell) (q : Pos) :
    (lookupCell (s.modifyCell p f).cells q = none ↔
      lookupCell s.cells q = none) := by
  rw [lookup_modify]
  by_cases hqp : q = p
  · subst hqp
    rcases hx : lookupCell s.cells q with _ | ⟨_ | c⟩ <;> simp [hx]
  · simp [hqp]

theorem lookup_modify_null (s : Sheet) (p : Pos) (f : Cell → Cell) (q : Pos) :
    (lookupCell (s.modifyCell p f).cells q = some none ↔
      lookupCell s.cells q = some none) := by
  rw [lookup_modify]
  by_cases hqp : q = p
  · subst hqp
    rcases hx : lookupCell s.cells q with _ | ⟨_ | c⟩ <;> simp [hx]
  · simp [hqp]

/-- Outgoing adjacency of the cell at `p` (empty for a missing or null
entry). -/
def Sheet.rNodesOf (s : Sheet) (p : Pos) : Finset Pos :=
  match s.cellAt p with
  | some c => c.r_nodes
  | none => ∅

theorem lNodesOf_modify (s : Sheet) (p : Pos) (f : Cell → Cell) (q : Pos) :
    (s.modifyCell p f).lNodesOf q =
      if q = p then
        (match s.cellAt p with
         | some c => (f c).l_nodes
         | none => ∅)
      else s.lNodesOf q := by
  unfold Sheet.lNodesOf
  rw [cellAt_modify]
  by_cases hqp : q = p
  · subst hqp
    rcases hx : s.cellAt q with _ | c <;> simp [hx]
  · simp [hqp]

theorem rNodesOf_modify (s : Sheet) (p : Pos) (f : Cell → Cell) (q : Pos) :
    (s.modifyCell p f).rNodesOf q =
      if q = p then
        (match s.cellAt p with
         | some c => (f c).r_nodes
         | none => ∅)
      else s.rNodesOf q := by
  unfold Sheet.rNodesOf
  rw [cellAt_modify]
  by_cases hqp : q = p
  · subst hqp
    rcases hx : s.cellAt q with _ | c <;> simp [hx]
  · simp [hqp]

theorem isLive_iff_cellAt (s : Sheet) (p : Pos) :
    s.isLive p = true ↔ ∃ c, s.cellAt p = some c := by
  unfold Sheet.isLive Sheet.cellAt
  rcases hx : lookupCell s.cells p with _ | ⟨_ | c⟩ <;> simp [hx]

theorem eraseFromIncoming_lookup_none (self : Pos) (L : List Pos) (s : Sheet)
    (q : Pos) :
    (lookupCell (Cell.eraseFromIncoming s self L).cells q = none ↔
      lookupCell s.cells q = none) := by
  induction L generalizing s with
  | nil => simp [Cell.eraseFromIncoming]
  | cons d ds ih =>
      rw [Cell.eraseFromIncoming, ih, lookup_modify_none]

theorem eraseFromIncoming_lookup_null (self : Pos) (L : List Pos) (s : Sheet)
    (q : Pos) :
    (lookupCell (Cell.eraseFromIncoming s self L).cells q = some none ↔
      lookupCell s.cells q = some none) := by
  induction L generalizing s with
  | nil => simp [Cell.eraseFromIncoming]
  | cons d ds ih =>
      rw [Cell.eraseFromIncoming, ih, lookup_modify_null]

theorem eraseFromIncoming_isLive (self : Pos) (L : List Pos) (s : Sheet)
    (q : Pos) :
    (Cell.eraseFromIncoming s self L).isLive q = s.isLive q := by
  induction L generalizing s with
  | nil => simp [Cell.eraseFromIncoming]
  | cons d ds ih =>
      rw [Cell.eraseFromIncoming, ih, isLive_modify]

theorem eraseFromIncoming_rNodesOf (self : Pos) (L : List Pos) (s : Sheet)
    (q : Pos) :
    (Cell.eraseFromIncoming s self L).rNodesOf q = s.rNodesOf q := by
  induction L generalizing s with
  | nil => simp [Cell.eraseFromIncoming]
  | cons d ds ih =>
      rw [Cell.eraseFromIncoming, ih, rNodesOf_modify]
      by_cases hqd : q = d
      · subst hqd
        unfold Sheet.rNodesOf Sheet.cellAt
        rcases hx : lookupCell s.cells q with _ | ⟨_ | c⟩ <;> simp [hx]
      · simp [hqd]

theorem eraseFromIncoming_lNodesOf (self : Pos) (L : List Pos) (s : Sheet)
    (q : Pos) :
    (Cell.eraseFromIncoming s self L).lNodesOf q =
      if q ∈ L then (s.lNodesOf q).erase self else s.lNodesOf q := by
  induction L generalizing s with
  | nil => simp [Cell.eraseFromIncoming]
  | cons d ds ih =>
      rw [Cell.eraseFromIncoming, ih]
      have hstep : ∀ r : Pos,
          (s.modifyCell d
            (fun c => { c with l_nodes := c.l_nodes.erase self })).lNodesOf r =
            if r = d then (s.lNodesOf d).erase self else s.lNodesOf r := by
        intro r
        rw [lNodesOf_modify]
        by_cases hrd : r = d
        · subst hrd
          unfold Sheet.lNodesOf Sheet.cellAt
          rcases hx : lookupCell s.cells r with _ | ⟨_ | c⟩ <;> simp [hx]
        · simp [hrd]
      by_cases hq : q ∈ ds
      · by_cases hqd : q = d <;>
          simp [hq, hqd, hstep, Finset.erase_idem]
      · by_cases hqd : q = d <;> simp [hq, hqd, hstep]

theorem addDependencyEdge_lookup_none (s : Sheet) (self pos q : Pos) :
    (lookupCell (Cell.addDependencyEdge s self pos).cells q = none ↔
      lookupCell s.cells q = none) := by
  unfold Cell.addDependencyEdge
  rw [lookup_modify_none, lookup_modify_none]

theorem addDependencyEdge_lookup_null (s : Sheet) (self pos q : Pos) :
    (lookupCell (Cell.addDependencyEdge s self pos).cells q = some none ↔
      lookupCell s.cells q = some none) := by
  unfold Cell.addDependencyEdge
  rw [lookup_modify_null, lookup_modify_null]

theorem addDependencyEdge_isLive (s : Sheet) (self pos q : Pos) :
    (Cell.addDependencyEdge s self pos).isLive q = s.isLive q := by
  unfold Cell.addDependencyEdge
  rw [isLive_modify, isLive_modify]

theorem isLive_lookup (s : Sheet) (p : Pos) :
    s.isLive p = true ↔ ∃ c, lookupCell s.cells p = some (some c) := by
  unfold Sheet.isLive
  rcases hx : lookupCell s.cells p with _ | ⟨_ | c⟩ <;> simp [hx]

theorem rNodesOf_as_lookup (s : Sheet) (q : Pos) :
    s.rNodesOf q =
      (match lookupCell s.cells q with
       | some (some c) => c.r_nodes
       | _ => ∅) := by
  unfold Sheet.rNodesOf Sheet.cellAt
  rcases hx : lookupCell s.cells q with _ | ⟨_ | c⟩ <;> simp [hx]

theorem lNodesOf_as_lookup (s : Sheet) (q : Pos) :
    s.lNodesOf q =
      (match lookupCell s.cells q with
       | some (some c) => c.l_nodes
       | _ => ∅) := by
  unfold Sheet.lNodesOf Sheet.cellAt
  rcases hx : lookupCell s.cells q with _ | ⟨_ | c⟩ <;> simp [hx]

theorem lookup_addDependencyEdge (s : Sheet) (self pos : Pos) (c cp : Cell)
    (hne : pos ≠ self)
    (hc : lookupCell s.cells self = some (some c))
    (hp : lookupCell s.cells pos = some (some cp)) (q : Pos) :
    lookupCell (Cell.addDependencyEdge s self pos).cells q =
      if q = self then some (some { c with r_nodes := insert pos c.r_nodes })
      else if q = pos then
        some (some { cp with l_nodes := insert self cp.l_nodes })
      else lookupCell s.cells q := by
  unfold Cell.addDependencyEdge
  simp only [lookup_modify, hc, hp, if_neg hne]
  by_cases hq2 : q = pos
  · have hqs : ¬ q = self := fun h => hne (by rw [← hq2, h])
    simp [hq2, hqs, hne]
  · by_cases hq1 : q = self <;> simp [hq1, hq2, hne, Ne.symm hne]

theorem addDependencyEdge_rNodesOf (s : Sheet) (self pos q : Pos)
    (hself : s.isLive self = true) (hpos : s.isLive pos = true)
    (hne : pos ≠ self) :
    (Cell.addDependencyEdge s self pos).rNodesOf q =
      if q = self then insert pos (s.rNodesOf self) else s.rNodesOf q := by
  obtain ⟨c, hc⟩ := (isLive_lookup s self).1 hself
  obtain ⟨cp, hp⟩ := (isLive_lookup s pos).1 hpos
  simp only [rNodesOf_as_lookup, lookup_addDependencyEdge s self pos c cp hne hc hp]
  by_cases hq1 : q = self
  · subst hq1; simp [hc]
  · by_cases hq2 : q = pos <;> simp [hq1, hq2, hp, hne]

theorem addDependencyEdge_lNodesOf (s : Sheet) (self pos q : Pos)
    (hself : s.isLive self = true) (hpos : s.isLive pos = true)
    (hne : pos ≠ self) :
    (Cell.addDependencyEdge s self pos).lNodesOf q =
      if q = pos then insert self (s.lNodesOf pos) else s.lNodesOf q := by
  obtain ⟨c, hc⟩ := (isLive_lookup s self).1 hself
  obtain ⟨cp, hp⟩ := (isLive_lookup s pos).1 hpos
  simp only [lNodesOf_as_lookup, lookup_addDependencyEdge s self pos c cp hne hc hp]
  by_cases hq1 : q = self
  · simp [hq1, hc, Ne.symm hne]
  · by_cases hq2 : q = pos <;> simp [hq1, hq2, hp, hne]

/-! ### The materialization path: `SetCell(pos, "")` on an absent key -/

theorem createImpl_empty (parse : String → Option FormulaObj) :
    Cell.CreateImpl parse "" = .ok .empty := by
  unfold Cell.CreateImpl
  have he : "".isEmpty = true := rfl
  simp [he]

theorem wouldCycle_empty (s : Sheet) (self : Pos) :
    Cell.WouldIntroduceCircularDependency s self .empty = false := by
  unfold Cell.WouldIntroduceCircularDependency
  simp [CellImpl.GetReferencedCells]

theorem modify_id_of_fix (s : Sheet) (p : Pos) (f : Cell → Cell) (c : Cell)
    (h : lookupCell s.cells p = some (some c)) (hf : f c = c) :
    s.modifyCell p f = s := by
  unfold Sheet.modifyCell
  rw [h]
  show ({ cells := updateCell s.cells p (some (f c)) } : Sheet) = s
  rw [hf, updateCell_lookup_eq _ _ _ h]

theorem posList_empty : posList ∅ = [] := by
  unfold posList
  exact Finset.sort_empty _

theorem invalidate_on_fresh (n : Nat) (s : Sheet) (self : Pos)
    (h : lookupCell s.cells self = some (some Cell.new)) :
    Cell.InvalidateCacheRecursive (n + 1) s self true = some s := by
  have hca : s.cellAt self = some Cell.new := by
    unfold Sheet.cellAt; rw [h]
  rw [Cell.InvalidateCacheRecursive]
  have hmod : s.modifyCell self
      (fun c0 => { c0 with impl := c0.impl.InvalidateCache }) = s :=
    modify_id_of_fix s self _ Cell.new h rfl
  simp only [hca, hmod]
  simp [Cell.new, CellImpl.IsCacheValid, posList_empty, invalidateFold]

theorem set_empty_on_fresh (fuel : Nat) (parse : String → Option FormulaObj)
    (s : Sheet) (self : Pos)
    (h : lookupCell s.cells self = some (some Cell.new)) :
    Cell.Set fuel parse s self "" = .ok () s := by
  have hca : s.cellAt self = some Cell.new := by
    unfold Sheet.cellAt; rw [h]
  have hmod1 : s.modifyCell self (fun c => { c with impl := CellImpl.empty }) = s :=
    modify_id_of_fix s self _ Cell.new h rfl
  have hmod2 : s.modifyCell self (fun c => { c with r_nodes := ∅ }) = s :=
    modify_id_of_fix s self _ Cell.new h rfl
  have hrn : Cell.new.r_nodes = (∅ : Finset Pos) := rfl
  have hud : Cell.UpdateDependencies fuel parse s self [] = .ok () s := by
    rw [Cell.UpdateDependencies]
  obtain ⟨m, hm⟩ : ∃ m, s.cells.length + 2 = m + 1 := ⟨s.cells.length + 1, rfl⟩
  rw [Cell.Set]
  simp only [createImpl_empty, wouldCycle_empty, Bool.false_eq_true, if_false,
    hca, hmod1, hrn, posList_empty, Cell.eraseFromIncoming, hmod2,
    CellImpl.GetReferencedCells, hud, hm, invalidate_on_fresh m s self h]

theorem setCell_empty_absent (fuel : Nat) (parse : String → Option FormulaObj)
    (s : Sheet) (pos : Pos)
    (hv : pos.IsValid = true) (habs : lookupCell s.cells pos = none) :
    Sheet.SetCell fuel parse s pos "" =
      .ok () ⟨s.cells ++ [(pos, some Cell.new)]⟩ := by
  have hl : lookupCell (s.cells ++ [(pos, some Cell.new)]) pos
      = some (some Cell.new) := by
    rw [lookupCell_append_absent _ _ _ _ habs, if_pos rfl]
  rw [Sheet.SetCell]
  simp only [hv, Bool.not_true, Bool.false_eq_true, if_false, habs, hl,
    set_empty_on_fresh fuel parse ⟨s.cells ++ [(pos, some Cell.new)]⟩ pos hl]

theorem setCell_null_entry (fuel : Nat) (parse : String → Option FormulaObj)
    (s : Sheet) (pos : Pos) (text : String)
    (hv : pos.IsValid = true) (hnull : lookupCell s.cells pos = some none) :
    Sheet.SetCell fuel parse s pos text = .ub := by
  rw [Sheet.SetCell]
  simp only [hv, Bool.not_true, Bool.false_eq_true, if_false, hnull]

/-- The post-state facts established by a normally returning
`Cell::UpdateDependencies` run. -/
structure UDPost (s s' : Sheet) (selfPos : Pos) (refs : List Pos) : Prop where
  live_mono : ∀ q, s.isLive q = true → s'.isLive q = true
  live_iff : ∀ q, s'.isLive q = true ↔ (s.isLive q = true ∨ q ∈ refs)
  null_iff : ∀ q,
    lookupCell s'.cells q = some none ↔ lookupCell s.cells q = some none
  none_iff : ∀ q,
    lookupCell s'.cells q = none ↔ (lookupCell s.cells q = none ∧ q ∉ refs)
  r_self : s'.rNodesOf selfPos = s.rNodesOf selfPos ∪ refs.toFinset
  r_other : ∀ q, q ≠ selfPos → s.isLive q = true → s'.rNodesOf q = s.rNodesOf q
  r_mat : ∀ q, q ≠ selfPos → s.isLive q = false → s'.rNodesOf q = ∅
  l_live : ∀ q, s.isLive q = true →
    s'.lNodesOf q = (if q ∈ refs then insert selfPos (s.lNodesOf q) else s.lNodesOf q)
  l_mat : ∀ q, s.isLive q = false →
    s'.lNodesOf q = (if q ∈ refs then {selfPos} else ∅)

theorem lNodesOf_of_not_live (s : Sheet) (q : Pos) (h : s.isLive q = false) :
    s.lNodesOf q = ∅ := by
  unfold Sheet.lNodesOf Sheet.cellAt
  unfold Sheet.isLive at h
  rcases hx : lookupCell s.cells q with _ | ⟨_ | c⟩ <;> simp [hx] <;>
    rw [hx] at h <;> simp at h

theorem rNodesOf_of_not_live (s : Sheet) (q : Pos) (h : s.isLive q = false) :
    s.rNodesOf q = ∅ := by
  unfold Sheet.rNodesOf Sheet.cellAt
  unfold Sheet.isLive at h
  rcases hx : lookupCell s.cells q with _ | ⟨_ | c⟩ <;> simp [hx] <;>
    rw [hx] at h <;> simp at h

theorem isLive_false_iff (s : Sheet) (q : Pos) :
    s.isLive q = false ↔
      (lookupCell s.cells q = none ∨ lookupCell s.cells q = some none) := by
  unfold Sheet.isLive
  rcases hx : lookupCell s.cells q with _ | ⟨_ | c⟩ <;> simp [hx]


theorem resolveOutgoing_live (fuel : Nat) (parse : String → Option FormulaObj)
    (s : Sheet) (pos : Pos) (cp : Cell) (hv : pos.IsValid = true)
    (hx : lookupCell s.cells pos = some (some cp)) :
    Cell.resolveOutgoing fuel parse s pos = .ok () s := by
  rw [Cell.resolveOutgoing.eq_def,
    show s.GetCellPtr pos = .ok (some cp) by
      unfold Sheet.GetCellPtr; simp [hv, hx]]

theorem resolveOutgoing_absent (fuel : Nat) (parse : String → Option FormulaObj)
    (s : Sheet) (pos : Pos) (hv : pos.IsValid = true)
    (hx : lookupCell s.cells pos = none) :
    Cell.resolveOutgoing (fuel + 1) parse s pos =
      .ok () ⟨s.cells ++ [(pos, some Cell.new)]⟩ := by
  rw [Cell.resolveOutgoing.eq_def,
    show s.GetCellPtr pos = .ok none by
      unfold Sheet.GetCellPtr; simp [hv, hx]]
  dsimp only
  rw [Cell.materializeOutgoing.eq_def]
  dsimp only
  rw [setCell_empty_absent fuel parse s pos hv hx]
  dsimp only [OpResult.bindU]
  rw [show (Sheet.mk (s.cells ++ [(pos, some Cell.new)])).GetCellPtr pos
        = .ok (some Cell.new) by
      unfold Sheet.GetCellPtr
      simp [hv, lookupCell_append_absent s.cells pos (some Cell.new) pos hx]]

theorem resolveOutgoing_absent_zero (parse : String → Option FormulaObj)
    (s : Sheet) (pos : Pos) (hv : pos.IsValid = true)
    (hx : lookupCell s.cells pos = none) :
    Cell.resolveOutgoing 0 parse s pos = .hang := by
  rw [Cell.resolveOutgoing.eq_def,
    show s.GetCellPtr pos = .ok none by
      unfold Sheet.GetCellPtr; simp [hv, hx]]
  dsimp only
  rw [Cell.materializeOutgoing.eq_def]

theorem resolveOutgoing_null (fuel : Nat) (parse : String → Option FormulaObj)
    (s : Sheet) (pos : Pos) (hv : pos.IsValid = true)
    (hx : lookupCell s.cells pos = some none) :
    Cell.resolveOutgoing fuel parse s pos = .hang ∨
      Cell.resolveOutgoing fuel parse s pos = .ub := by
  rw [Cell.resolveOutgoing.eq_def,
    show s.GetCellPtr pos = .ok none by
      unfold Sheet.GetCellPtr; simp [hv, hx]]
  dsimp only
  rw [Cell.materializeOutgoing.eq_def]
  match fuel with
  | 0 => exact Or.inl rfl
  | fuel' + 1 =>
      dsimp only
      rw [setCell_null_entry fuel' parse s pos "" hv hx]
      exact Or.inr rfl

theorem updateDependencies_ok_char (refs : List Pos) (fuel : Nat)
    (parse : String → Option FormulaObj) (s s' : Sheet) (self : Pos)
    (hself : s.isLive self = true)
    (hvalid : ∀ p ∈ refs, p.IsValid = true)
    (hnotself : self ∉ refs)
    (hok : Cell.UpdateDependencies fuel parse s self refs = .ok () s') :
    UDPost s s' self refs := by
  induction refs generalizing s fuel with
  | nil =>
      rw [Cell.UpdateDependencies.eq_def] at hok
      dsimp only at hok
      cases hok
      exact {
        live_mono := fun q h => h
        live_iff := fun q => by simp
        null_iff := fun q => Iff.rfl
        none_iff := fun q => by simp
        r_self := by simp
        r_other := fun _ _ _ => rfl
        r_mat := fun q _ h => rNodesOf_of_not_live _ q h
        l_live := fun q _ => by simp
        l_mat := fun q h => by simp [lNodesOf_of_not_live _ q h] }
  | cons pos rest ih =>
      have hvpos : pos.IsValid = true := hvalid pos (List.mem_cons_self _ _)
      have hvrest : ∀ p ∈ rest, p.IsValid = true :=
        fun p hp => hvalid p (List.mem_cons_of_mem _ hp)
      have hnspos : self ≠ pos := fun h => hnotself (h ▸ List.mem_cons_self _ _)
      have hnsrest : self ∉ rest := fun h => hnotself (List.mem_cons_of_mem _ h)
      rw [Cell.UpdateDependencies.eq_def] at hok
      dsimp only at hok
      rcases hx : lookupCell s.cells pos with _ | ⟨_ | cp⟩
      · -- the referenced key is absent: materialization happens
        match fuel, hok with
        | 0, hok =>
          rw [resolveOutgoing_absent_zero parse s pos hvpos hx] at hok
          simp [OpResult.bindU] at hok
        | fuel' + 1, hok =>
          rw [resolveOutgoing_absent fuel' parse s pos hvpos hx] at hok
          dsimp only [OpResult.bindU] at hok
          set sm : Sheet := ⟨s.cells ++ [(pos, some Cell.new)]⟩ with hsm
          have hlm : ∀ q, lookupCell sm.cells q =
              if q = pos then some (some Cell.new) else lookupCell s.cells q :=
            fun q => lookupCell_append_absent s.cells pos (some Cell.new) q hx
          have hmlivepos : sm.isLive pos = true := by
            rw [isLive_lookup]; exact ⟨Cell.new, by rw [hlm pos, if_pos rfl]⟩
          have hql : ∀ q, q ≠ pos →
              lookupCell sm.cells q = lookupCell s.cells q :=
            fun q hq => by rw [hlm q, if_neg hq]
          have hmlive : ∀ q, sm.isLive q = true ↔ (q = pos ∨ s.isLive q = true) := by
            intro q
            by_cases hq : q = pos
            · subst hq; simp [hmlivepos]
            · rw [isLive_lookup, isLive_lookup, hql q hq]; simp [hq]
          have hmliveself : sm.isLive self = true :=
            (hmlive self).2 (Or.inr hself)
          have hrm : ∀ q, sm.rNodesOf q =
              if q = pos then ∅ else s.rNodesOf q := by
            intro q
            rw [rNodesOf_as_lookup, rNodesOf_as_lookup, hlm q]
            by_cases hq : q = pos
            · simp [hq, Cell.new]
            · simp [hq]
          have hlmn : ∀ q, sm.lNodesOf q =
              if q = pos then ∅ else s.lNodesOf q := by
            intro q
            rw [lNodesOf_as_lookup, lNodesOf_as_lookup, hlm q]
            by_cases hq : q = pos
            · simp [hq, Cell.new]
            · simp [hq]
          set sb : Sheet := Cell.addDependencyEdge sm self pos with hsb
          have hblive : ∀ q, sb.isLive q = sm.isLive q :=
            fun q => addDependencyEdge_isLive sm self pos q
          have hbr : ∀ q, sb.rNodesOf q =
              if q = self then insert pos (sm.rNodesOf self) else sm.rNodesOf q :=
            fun q => addDependencyEdge_rNodesOf sm self pos q hmliveself
              hmlivepos (Ne.symm hnspos)
          have hbl : ∀ q, sb.lNodesOf q =
              if q = pos then insert self (sm.lNodesOf pos) else sm.lNodesOf q :=
            fun q => addDependencyEdge_lNodesOf sm self pos q hmliveself
              hmlivepos (Ne.symm hnspos)
          have hbnull : ∀ q, lookupCell sb.cells q = some none ↔
              lookupCell sm.cells q = some none :=
            fun q => addDependencyEdge_lookup_null sm self pos q
          have hbnone : ∀ q, lookupCell sb.cells q = none ↔
              lookupCell sm.cells q = none :=
            fun q => addDependencyEdge_lookup_none sm self pos q
          have hbliveself : sb.isLive self = true := by
            rw [hblive]; exact hmliveself
          have hpost := ih _ _ hbliveself hvrest hnsrest hok
          -- assemble
          refine {
            live_mono := ?_, live_iff := ?_, null_iff := ?_, none_iff := ?_,
            r_self := ?_, r_other := ?_, r_mat := ?_, l_live := ?_, l_mat := ?_ }
          · intro q hq
            exact hpost.live_mono q (by rw [hblive]; exact (hmlive q).2 (Or.inr hq))
          · intro q
            rw [hpost.live_iff q, hblive, hmlive q]
            constructor
            · rintro ((h | h) | h)
              · exact Or.inr (h ▸ List.mem_cons_self _ _)
              · exact Or.inl h
              · exact Or.inr (List.mem_cons_of_mem _ h)
            · rintro (h | h)
              · exact Or.inl (Or.inr h)
              · rcases List.mem_cons.1 h with h | h
                · exact Or.inl (Or.inl h)
                · exact Or.inr h
          · intro q
            rw [hpost.null_iff q, hbnull, hlm q]
            by_cases hq : q = pos
            · subst hq; simp [hx]
            · simp [hq]
          · intro q
            rw [hpost.none_iff q, hbnone, hlm q]
            by_cases hq : q = pos
            · subst hq; simp
            · simp [hq, List.mem_cons]
          · rw [hpost.r_self, hbr, if_pos rfl, hrm, if_neg hnspos,
              List.toFinset_cons, Finset.insert_union, Finset.union_insert]
          · intro q hqs hqlive
            have hqp : q ≠ pos := by
              intro h; subst h
              rw [isLive_lookup] at hqlive
              obtain ⟨c, hc⟩ := hqlive
              rw [hx] at hc; cases hc
            rw [hpost.r_other q hqs (by rw [hblive]; exact (hmlive q).2 (Or.inr hqlive)),
              hbr, if_neg hqs, hrm, if_neg hqp]
          · intro q hqs hqdead
            by_cases hqp : q = pos
            · subst hqp
              rw [hpost.r_other q hqs (by rw [hblive]; exact hmlivepos),
                hbr, if_neg hqs, hrm, if_pos rfl]
            · have : sb.isLive q = false := by
                rw [hblive]
                rcases hb : sm.isLive q with _ | _
                · rfl
                · exact absurd ((hmlive q).1 hb)
                    (by push_neg; exact ⟨hqp, by rw [hqdead]; simp⟩)
              exact hpost.r_mat q hqs this
          · intro q hqlive
            have hqp : q ≠ pos := by
              intro h; subst h
              rw [isLive_lookup] at hqlive
              obtain ⟨c, hc⟩ := hqlive
              rw [hx] at hc; cases hc
            rw [hpost.l_live q (by rw [hblive]; exact (hmlive q).2 (Or.inr hqlive)),
              hbl, if_neg hqp, hlmn, if_neg hqp]
            by_cases hq : q ∈ rest <;> simp [hq, hqp, List.mem_cons]
          · intro q hqdead
            by_cases hqp : q = pos
            · subst hqp
              rw [hpost.l_live q (by rw [hblive]; exact hmlivepos),
                hbl, if_pos rfl, hlmn, if_pos rfl]
              by_cases hq : q ∈ rest <;>
                simp [hq, List.mem_cons, Finset.insert_idem]
            · have hbq : sb.isLive q = false := by
                rw [hblive]
                rcases hb : sm.isLive q with _ | _
                · rfl
                · exact absurd ((hmlive q).1 hb)
                    (by push_neg; exact ⟨hqp, by rw [hqdead]; simp⟩)
              rw [hpost.l_mat q hbq]
              by_cases hq : q ∈ rest <;> simp [hq, hqp, List.mem_cons]
      · -- the referenced key holds a null pointer: the run would be UB
        exfalso
        rcases resolveOutgoing_null fuel parse s pos hvpos hx with h | h <;>
          rw [h] at hok <;> simp [OpResult.bindU] at hok
      · -- the referenced cell is live: a mirrored edge pair is inserted
        rw [resolveOutgoing_live fuel parse s pos cp hvpos hx] at hok
        dsimp only [OpResult.bindU] at hok
        set sa : Sheet := Cell.addDependencyEdge s self pos with hsa
        have hposlive : s.isLive pos = true := (isLive_lookup s pos).2 ⟨cp, hx⟩
        have halive : ∀ q, sa.isLive q = s.isLive q :=
          fun q => addDependencyEdge_isLive s self pos q
        have har : ∀ q, sa.rNodesOf q =
            if q = self then insert pos (s.rNodesOf self) else s.rNodesOf q :=
          fun q => addDependencyEdge_rNodesOf s self pos q hself hposlive
            (Ne.symm hnspos)
        have hal : ∀ q, sa.lNodesOf q =
            if q = pos then insert self (s.lNodesOf pos) else s.lNodesOf q :=
          fun q => addDependencyEdge_lNodesOf s self pos q hself hposlive
            (Ne.symm hnspos)
        have hanull : ∀ q, lookupCell sa.cells q = some none ↔
            lookupCell s.cells q = some none :=
          fun q => addDependencyEdge_lookup_null s self pos q
        have hanone : ∀ q, lookupCell sa.cells q = none ↔
            lookupCell s.cells q = none :=
          fun q => addDependencyEdge_lookup_none s self pos q
        have hpost := ih _ _ (by rw [halive]; exact hself) hvrest hnsrest hok
        refine {
          live_mono := ?_, live_iff := ?_, null_iff := ?_, none_iff := ?_,
          r_self := ?_, r_other := ?_, r_mat := ?_, l_live := ?_, l_mat := ?_ }
        · intro q hq
          exact hpost.live_mono q (by rw [halive]; exact hq)
        · intro q
          rw [hpost.live_iff q, halive, List.mem_cons]
          constructor
          · rintro (h | h)
            · exact Or.inl h
            · exact Or.inr (Or.inr h)
          · rintro (h | h | h)
            · exact Or.inl h
            · exact Or.inl (h ▸ hposlive)
            · exact Or.inr h
        · intro q
          rw [hpost.null_iff q, hanull]
        · intro q
          rw [hpost.none_iff q, hanone, List.mem_cons]
          constructor
          · rintro ⟨h1, h2⟩
            refine ⟨h1, ?_⟩
            rintro (h | h)
            · subst h; rw [hx] at h1; cases h1
            · exact h2 h
          · rintro ⟨h1, h2⟩
            exact ⟨h1, fun h => h2 (Or.inr h)⟩
        · rw [hpost.r_self, har, if_pos rfl, List.toFinset_cons,
            Finset.insert_union, Finset.union_insert]
        · intro q hqs hqlive
          rw [hpost.r_other q hqs (by rw [halive]; exact hqlive), har, if_neg hqs]
        · intro q hqs hqdead
          have : sa.isLive q = false := by rw [halive]; exact hqdead
          exact hpost.r_mat q hqs this
        · intro q hqlive
          rw [hpost.l_live q (by rw [halive]; exact hqlive), hal]
          by_cases hq2 : q = pos
          · subst hq2
            by_cases hqr : q ∈ rest <;>
              simp [hqr, Finset.insert_idem, List.mem_cons]
          · by_cases hqr : q ∈ rest <;> simp [hq2, hqr, List.mem_cons]
        · intro q hqdead
          have hqp : q ≠ pos := by
            intro h; subst h; rw [hposlive] at hqdead; cases hqdead
          have hdq : sa.isLive q = false := by rw [halive]; exact hqdead
          rw [hpost.l_mat q hdq]
          by_cases hq : q ∈ rest <;> simp [hq, hqp, List.mem_cons]

/-! ### Cache invalidation only touches caches -/

/-- Two sheets with identical key population and identical adjacency — the
cells may differ only in their impl payloads (bodies/caches). -/
def SameShape (s s' : Sheet) : Prop :=
  (∀ q, lookupCell s'.cells q = none ↔ lookupCell s.cells q = none) ∧
  (∀ q, lookupCell s'.cells q = some none ↔ lookupCell s.cells q = some none) ∧
  (∀ q, s'.isLive q = s.isLive q) ∧
  (∀ q, s'.lNodesOf q = s.lNodesOf q) ∧
  (∀ q, s'.rNodesOf q = s.rNodesOf q)

theorem SameShape.refl (s : Sheet) : SameShape s s :=
  ⟨fun _ => Iff.rfl, fun _ => Iff.rfl, fun _ => rfl, fun _ => rfl, fun _ => rfl⟩

theorem SameShape.comp {s1 s2 s3 : Sheet} (h1 : SameShape s1 s2)
    (h2 : SameShape s2 s3) : SameShape s1 s3 :=
  ⟨fun q => (h2.1 q).trans (h1.1 q),
   fun q => (h2.2.1 q).trans (h1.2.1 q),
   fun q => (h2.2.2.1 q).trans (h1.2.2.1 q),
   fun q => (h2.2.2.2.1 q).trans (h1.2.2.2.1 q),
   fun q => (h2.2.2.2.2 q).trans (h1.2.2.2.2 q)⟩

theorem shape_modify_impl (s : Sheet) (p : Pos) (g : CellImpl → CellImpl) :
    SameShape s (s.modifyCell p (fun c => { c with impl := g c.impl })) := by
  refine ⟨fun q => lookup_modify_none s p _ q,
    fun q => lookup_modify_null s p _ q,
    fun q => isLive_modify s p _ q, fun q => ?_, fun q => ?_⟩
  · rw [lNodesOf_modify]
    by_cases hq : q = p
    · subst hq
      rcases hx : s.cellAt q with _ | c
      · simp [hx, lNodesOf_as_lookup]
        unfold Sheet.cellAt at hx
        rcases hy : lookupCell s.cells q with _ | ⟨_ | c2⟩ <;>
          simp [hy] <;> rw [hy] at hx <;> simp at hx
      · simp [hx, lNodesOf_as_lookup]
        unfold Sheet.cellAt at hx
        rcases hy : lookupCell s.cells q with _ | ⟨_ | c2⟩ <;>
          rw [hy] at hx <;> simp at hx <;> simp [hy, hx]
    · simp [hq]
  · rw [rNodesOf_modify]
    by_cases hq : q = p
    · subst hq
      rcases hx : s.cellAt q with _ | c
      · simp [hx, rNodesOf_as_lookup]
        unfold Sheet.cellAt at hx
        rcases hy : lookupCell s.cells q with _ | ⟨_ | c2⟩ <;>
          simp [hy] <;> rw [hy] at hx <;> simp at hx
      · simp [hx, rNodesOf_as_lookup]
        unfold Sheet.cellAt at hx
        rcases hy : lookupCell s.cells q with _ | ⟨_ | c2⟩ <;>
          rw [hy] at hx <;> simp at hx <;> simp [hy, hx]
    · simp [hq]

theorem invalidateIncoming_shape (fuel : Nat)
    (hP : ∀ s p force s', Cell.InvalidateCacheRecursive fuel s p force = some s' →
      SameShape s s') :
    ∀ L s s', Cell.invalidateIncoming fuel s L = some s' → SameShape s s' := by
  intro L
  induction L with
  | nil =>
      intro s s' h
      unfold Cell.invalidateIncoming at h
      rw [invalidateFold] at h
      cases h
      exact SameShape.refl _
  | cons d ds ih =>
      intro s s' h
      unfold Cell.invalidateIncoming at h ih
      rw [invalidateFold] at h
      rcases hx : Cell.InvalidateCacheRecursive fuel s d false with _ | s1
      · rw [hx] at h; cases h
      · rw [hx] at h
        exact (hP s d false s1 hx).comp (ih s1 s' h)

theorem invalidateRec_shape : ∀ (fuel : Nat) (s : Sheet) (p : Pos)
    (force : Bool) (s' : Sheet),
    Cell.InvalidateCacheRecursive fuel s p force = some s' → SameShape s s' := by
  intro fuel
  induction fuel with
  | zero =>
      intro s p force s' h
      rw [Cell.InvalidateCacheRecursive] at h
      cases h
  | succ n ih =>
      intro s p force s' h
      rw [Cell.InvalidateCacheRecursive] at h
      rcases hx : s.cellAt p with _ | c
      · rw [hx] at h; cases h; exact SameShape.refl _
      · rw [hx] at h
        dsimp only at h
        by_cases hcv : (c.impl.IsCacheValid || force) = true
        · rw [if_pos hcv] at h
          exact (shape_modify_impl s p _).comp
            (invalidateIncoming_shape n ih _ _ _ h)
        · rw [if_neg hcv] at h; cases h; exact SameShape.refl _

/-! ### Facts about referenced-cell lists and the cycle check entry -/

theorem uniqueConsecutive_subset : ∀ (l : List Pos) (x : Pos),
    x ∈ uniqueConsecutive l → x ∈ l := by
  have key : ∀ (n : Nat) (l : List Pos), l.length ≤ n →
      ∀ x, x ∈ uniqueConsecutive l → x ∈ l := by
    intro n
    induction n with
    | zero =>
        intro l hl x hx
        match l, hl with
        | [], _ => rw [uniqueConsecutive] at hx; cases hx
    | succ n ih =>
        intro l hl x hx
        match l with
        | [] => rw [uniqueConsecutive] at hx; cases hx
        | [a] => rw [uniqueConsecutive] at hx; exact hx
        | a :: b :: rest =>
            rw [uniqueConsecutive] at hx
            by_cases hab : a = b
            · rw [if_pos hab] at hx
              have hlen : (b :: rest).length ≤ n := by
                simp at hl ⊢; omega
              have := ih (b :: rest) hlen x hx
              exact List.mem_cons_of_mem _ this
            · rw [if_neg hab] at hx
              rcases List.mem_cons.1 hx with h1 | h1
              · subst h1; exact List.mem_cons_self _ _
              · have hlen : (b :: rest).length ≤ n := by
                  simp at hl ⊢; omega
                exact List.mem_cons_of_mem _ (ih (b :: rest) hlen x h1)
  intro l x hx
  exact key l.length l (Nat.le_refl _) x hx

theorem getRefs_valid (i : CellImpl) :
    ∀ p ∈ i.GetReferencedCells, p.IsValid = true := by
  intro p hp
  match i with
  | .empty => cases hp
  | .text s0 => cases hp
  | .formula f _ =>
      have := uniqueConsecutive_subset _ _ hp
      exact (List.mem_filter.1 this).2

theorem cycleFuel_exists_succ (s : Sheet) : ∃ m, s.cycleFuel = m + 1 := by
  unfold Sheet.cycleFuel
  have mono : ∀ (l : List (Pos × Option Cell)) (n : Nat),
      n ≤ l.foldl (fun n pc => n + 1 +
        (match pc.2 with | some c => c.l_nodes.card | none => 0)) n := by
    intro l
    induction l with
    | nil => intro n; exact Nat.le_refl n
    | cons hd tl ih =>
        intro n
        rw [List.foldl_cons]
        exact le_trans (le_trans (Nat.le_succ n) (Nat.le_add_right (n + 1) _))
          (ih _)
  obtain ⟨k, hk⟩ := Nat.exists_eq_add_of_le (mono s.cells 2)
  exact ⟨k + 1, by omega⟩

theorem cycleSearch_false_not_start (s : Sheet) (R : Finset Pos) (m : Nat)
    (self : Pos)
    (h : Cell.cycleSearch s R (m + 1) ∅ [self] = false) : self ∉ R := by
  intro hmem
  rw [Cell.cycleSearch] at h
  simp only [hmem, if_pos] at h
  cases h

theorem wouldCycle_false_self_not_ref (s : Sheet) (self : Pos)
    (impl : CellImpl) (hlive : s.isLive self = true)
    (h : Cell.WouldIntroduceCircularDependency s self impl = false) :
    self ∉ impl.GetReferencedCells := by
  intro hmem
  unfold Cell.WouldIntroduceCircularDependency at h
  dsimp only at h
  have hne : impl.GetReferencedCells.isEmpty = false := by
    rcases hl : impl.GetReferencedCells with _ | ⟨a, l⟩
    · rw [hl] at hmem; cases hmem
    · rfl
  rw [hne] at h
  simp only [Bool.false_eq_true, if_false] at h
  obtain ⟨m, hm⟩ := cycleFuel_exists_succ s
  rw [hm] at h
  exact cycleSearch_false_not_start s _ m self h
    (by
      simp only [List.mem_toFinset, List.mem_filter]
      exact ⟨hmem, hlive⟩)

theorem ud_never_exn (refs : List Pos) (fuel : Nat)
    (parse : String → Option FormulaObj) (s : Sheet) (self : Pos)
    (hvalid : ∀ p ∈ refs, p.IsValid = true) (e : Exn) (st : Sheet) :
    Cell.UpdateDependencies fuel parse s self refs ≠ .exn e st := by
  induction refs generalizing s fuel with
  | nil =>
      rw [Cell.UpdateDependencies.eq_def]
      dsimp only
      intro h; cases h
  | cons pos rest ih =>
      have hvpos : pos.IsValid = true := hvalid pos (List.mem_cons_self _ _)
      have hvrest : ∀ p ∈ rest, p.IsValid = true :=
        fun p hp => hvalid p (List.mem_cons_of_mem _ hp)
      rw [Cell.UpdateDependencies.eq_def]
      dsimp only
      rcases hx : lookupCell s.cells pos with _ | ⟨_ | cp⟩
      · match fuel with
        | 0 =>
            rw [resolveOutgoing_absent_zero parse s pos hvpos hx]
            intro h; cases h
        | fuel' + 1 =>
            rw [resolveOutgoing_absent fuel' parse s pos hvpos hx]
            dsimp only [OpResult.bindU]
            exact ih _ _ hvrest
      · rcases resolveOutgoing_null fuel parse s pos hvpos hx with h1 | h1 <;>
          · rw [h1]
            intro h; cases h
      · rw [resolveOutgoing_live fuel parse s pos cp hvpos hx]
        dsimp only [OpResult.bindU]
        exact ih _ _ hvrest

theorem set_exn_char (fuel : Nat) (parse : String → Option FormulaObj)
    (s : Sheet) (self : Pos) (text : String) (e : Exn) (s'' : Sheet)
    (hexn : Cell.Set fuel parse s self text = .exn e s'') :
    s'' = s ∧ (e = .formulaError ∨ e = .circularDependency) := by
  rw [Cell.Set] at hexn
  rcases hci : Cell.CreateImpl parse text with e0 | impl
  · rw [hci] at hexn
    dsimp only at hexn
    have he0 : e0 = .formulaError := by
      unfold Cell.CreateImpl at hci
      by_cases h1 : text.isEmpty
      · rw [if_pos h1] at hci; cases hci
      · rw [if_neg h1] at hci
        by_cases h2 : (text.length > 1 && text.front == '=') = true
        · rw [if_pos h2] at hci
          rcases hp : parse (text.drop 1) with _ | f
          · rw [hp] at hci; cases hci; rfl
          · rw [hp] at hci; cases hci
        · rw [if_neg h2] at hci; cases hci
    cases hexn
    exact ⟨rfl, Or.inl he0⟩
  · rw [hci] at hexn
    dsimp only at hexn
    by_cases hwc : Cell.WouldIntroduceCircularDependency s self impl = true
    · rw [if_pos hwc] at hexn
      cases hexn
      exact ⟨rfl, Or.inr rfl⟩
    · rw [if_neg hwc] at hexn
      rcases hca : s.cellAt self with _ | c0
      · rw [hca] at hexn; cases hexn
      · rw [hca] at hexn
        dsimp only at hexn
        set s3 : Sheet := (Cell.eraseFromIncoming
            (s.modifyCell self (fun c => { c with impl := impl })) self
            (posList c0.r_nodes)).modifyCell self
            (fun c => { c with r_nodes := ∅ }) with hs3
        cases hud : Cell.UpdateDependencies fuel parse s3 self
            impl.GetReferencedCells with
        | ok v s4 =>
            rw [hud] at hexn
            dsimp only at hexn
            rcases hin : Cell.InvalidateCacheRecursive (s4.cells.length + 2)
                s4 self true with _ | s5 <;>
              · rw [hin] at hexn
                cases hexn
        | exn e1 st =>
            exact absurd hud
              (ud_never_exn _ fuel parse _ self (getRefs_valid impl) e1 st)
        | ub => rw [hud] at hexn; cases hexn
        | hang => rw [hud] at hexn; cases hexn

theorem lNodesOf_modify_keep (s : Sheet) (p : Pos) (f : Cell → Cell) (q : Pos)
    (hf : ∀ c, (f c).l_nodes = c.l_nodes) :
    (s.modifyCell p f).lNodesOf q = s.lNodesOf q := by
  rw [lNodesOf_modify]
  by_cases hq : q = p
  · subst hq
    rcases hx : s.cellAt q with _ | c
    · simp [hx, Sheet.lNodesOf]
    · simp [hx, hf c, Sheet.lNodesOf]
  · simp [hq]

theorem rNodesOf_modify_keep (s : Sheet) (p : Pos) (f : Cell → Cell) (q : Pos)
    (hf : ∀ c, (f c).r_nodes = c.r_nodes) :
    (s.modifyCell p f).rNodesOf q = s.rNodesOf q := by
  rw [rNodesOf_modify]
  by_cases hq : q = p
  · subst hq
    rcases hx : s.cellAt q with _ | c
    · simp [hx, Sheet.rNodesOf]
    · simp [hx, hf c, Sheet.rNodesOf]
  · simp [hq]

/-- The post-state facts established by a normally returning Cell::Set:
`selfPos`'s outgoing set is exactly the new reference list, `selfPos` was
removed from the incoming sets of its old outgoing targets and inserted
into those of the new ones, referenced absent cells were materialized, and
nothing else changed (up to cache payloads). -/
structure SetPost (s s' : Sheet) (selfPos : Pos) (oldOut : Finset Pos)
    (refs : List Pos) : Prop where
  live_mono : ∀ q, s.isLive q = true → s'.isLive q = true
  live_iff : ∀ q, s'.isLive q = true ↔ (s.isLive q = true ∨ q ∈ refs)
  null_iff : ∀ q,
    lookupCell s'.cells q = some none ↔ lookupCell s.cells q = some none
  none_iff : ∀ q,
    lookupCell s'.cells q = none ↔ (lookupCell s.cells q = none ∧ q ∉ refs)
  r_self : s'.rNodesOf selfPos = refs.toFinset
  r_other : ∀ q, q ≠ selfPos → s.isLive q = true → s'.rNodesOf q = s.rNodesOf q
  r_mat : ∀ q, q ≠ selfPos → s.isLive q = false → s'.rNodesOf q = ∅
  l_live : ∀ q, s.isLive q = true → s'.lNodesOf q =
    (if q ∈ refs then
      insert selfPos
        (if q ∈ oldOut then (s.lNodesOf q).erase selfPos else s.lNodesOf q)
     else
      (if q ∈ oldOut then (s.lNodesOf q).erase selfPos else s.lNodesOf q))
  l_mat : ∀ q, s.isLive q = false →
    s'.lNodesOf q = (if q ∈ refs then {selfPos} else ∅)

theorem set_ok_char (fuel : Nat) (parse : String → Option FormulaObj)
    (s : Sheet) (self : Pos) (text : String) (s' : Sheet)
    (hok : Cell.Set fuel parse s self text = .ok () s') :
    ∃ impl c0, Cell.CreateImpl parse text = .ok impl ∧
      Cell.WouldIntroduceCircularDependency s self impl = false ∧
      s.cellAt self = some c0 ∧
      self ∉ impl.GetReferencedCells ∧
      SetPost s s' self c0.r_nodes impl.GetReferencedCells := by
  rw [Cell.Set] at hok
  rcases hci : Cell.CreateImpl parse text with e0 | impl
  · rw [hci] at hok; cases hok
  · rw [hci] at hok
    dsimp only at hok
    by_cases hwc : Cell.WouldIntroduceCircularDependency s self impl = true
    · rw [if_pos hwc] at hok; cases hok
    · rw [if_neg hwc] at hok
      rcases hca : s.cellAt self with _ | c0
      · rw [hca] at hok; cases hok
      · rw [hca] at hok
        dsimp only at hok
        have hlive : s.isLive self = true :=
          (isLive_iff_cellAt s self).2 ⟨c0, hca⟩
        have hns : self ∉ impl.GetReferencedCells :=
          wouldCycle_false_self_not_ref s self impl hlive
            (Bool.not_eq_true _ ▸ hwc |> eq_false_of_ne_true)
        set s3 : Sheet := (Cell.eraseFromIncoming
            (s.modifyCell self (fun c => { c with impl := impl })) self
            (posList c0.r_nodes)).modifyCell self
            (fun c => { c with r_nodes := ∅ }) with hs3
        -- pointwise facts about s3 relative to s
        have h3none : ∀ q, lookupCell s3.cells q = none ↔
            lookupCell s.cells q = none := by
          intro q
          rw [hs3, lookup_modify_none, eraseFromIncoming_lookup_none,
            lookup_modify_none]
        have h3null : ∀ q, lookupCell s3.cells q = some none ↔
            lookupCell s.cells q = some none := by
          intro q
          rw [hs3, lookup_modify_null, eraseFromIncoming_lookup_null,
            lookup_modify_null]
        have h3live : ∀ q, s3.isLive q = s.isLive q := by
          intro q
          rw [hs3, isLive_modify, eraseFromIncoming_isLive, isLive_modify]
        have h3r : ∀ q, s3.rNodesOf q =
            if q = self then ∅ else s.rNodesOf q := by
          intro q
          rw [hs3, rNodesOf_modify]
          by_cases hq : q = self
          · subst hq
            rw [if_pos rfl, if_pos rfl]
            rcases hx : (Cell.eraseFromIncoming
                (s.modifyCell q (fun c => { c with impl := impl })) q
                (posList c0.r_nodes)).cellAt q with _ | c
            · simp [hx]
            · simp [hx]
          · rw [if_neg hq, if_neg hq, eraseFromIncoming_rNodesOf,
              rNodesOf_modify_keep]
            intro c; rfl
        have h3l : ∀ q, s3.lNodesOf q =
            if q ∈ c0.r_nodes then (s.lNodesOf q).erase self
            else s.lNodesOf q := by
          intro q
          rw [hs3,
            lNodesOf_modify_keep _ self (fun c => { c with r_nodes := ∅ }) q
              (fun c => rfl),
            eraseFromIncoming_lNodesOf,
            lNodesOf_modify_keep _ self (fun c => { c with impl := impl }) q
              (fun c => rfl)]
          have hms : q ∈ posList c0.r_nodes ↔ q ∈ c0.r_nodes :=
            Finset.mem_sort _
          by_cases hq : q ∈ c0.r_nodes
          · rw [if_pos (hms.2 hq), if_pos hq]
          · rw [if_neg (fun hc => hq (hms.1 hc)), if_neg hq]
        have h3liveself : s3.isLive self = true := by
          rw [h3live]; exact hlive
        cases hud : Cell.UpdateDependencies fuel parse s3 self
            impl.GetReferencedCells with
        | ok v s4 =>
            rw [hud] at hok
            dsimp only at hok
            rcases hin : Cell.InvalidateCacheRecursive (s4.cells.length + 2)
                s4 self true with _ | s5
            · rw [hin] at hok; cases hok
            · rw [hin] at hok
              cases hok
              have hsh : SameShape s4 s' := invalidateRec_shape _ _ _ _ _ hin
              have hpost := updateDependencies_ok_char _ fuel parse s3 s4 self
                h3liveself (getRefs_valid impl) hns hud
              refine ⟨impl, c0, rfl, eq_false_of_ne_true hwc, rfl, hns, ?_⟩
              refine {
                live_mono := ?_, live_iff := ?_, null_iff := ?_,
                none_iff := ?_, r_self := ?_, r_other := ?_, r_mat := ?_,
                l_live := ?_, l_mat := ?_ }
              · intro q hq
                rw [hsh.2.2.1 q]
                exact hpost.live_mono q (by rw [h3live]; exact hq)
              · intro q
                rw [hsh.2.2.1 q, hpost.live_iff q, h3live]
              · intro q
                rw [hsh.2.1 q, hpost.null_iff q, h3null]
              · intro q
                rw [hsh.1 q, hpost.none_iff q, h3none]
              · rw [hsh.2.2.2.2 self, hpost.r_self, h3r, if_pos rfl,
                  Finset.empty_union]
              · intro q hq hqlive
                rw [hsh.2.2.2.2 q,
                  hpost.r_other q hq (by rw [h3live]; exact hqlive), h3r,
                  if_neg hq]
              · intro q hq hqdead
                rw [hsh.2.2.2.2 q]
                exact hpost.r_mat q hq (by rw [h3live]; exact hqdead)
              · intro q hqlive
                rw [hsh.2.2.2.1 q,
                  hpost.l_live q (by rw [h3live]; exact hqlive), h3l]
              · intro q hqdead
                rw [hsh.2.2.2.1 q]
                have h3dead : s3.isLive q = false := by
                  rw [h3live]; exact hqdead
                rw [hpost.l_mat q h3dead]
        | exn e1 st =>
            exact absurd hud
              (ud_never_exn _ fuel parse _ self (getRefs_valid impl) e1 st)
        | ub => rw [hud] at hok; cases hok
        | hang => rw [hud] at hok; cases hok

/-! ### The dependency graph and its invariants -/

/-- Outgoing (formula-reference) edge: `a`'s cell reads `b`. -/
def Sheet.rEdge (s : Sheet) (a b : Pos) : Prop :=
  s.isLive a = true ∧ b ∈ s.rNodesOf a

/-- Incoming edge: `a`'s cell is read by `b`. -/
def Sheet.lEdge (s : Sheet) (a b : Pos) : Prop :=
  s.isLive a = true ∧ b ∈ s.lNodesOf a

/-- No directed cycle along outgoing edges. -/
def Acyclic (s : Sheet) : Prop :=
  ∀ p, ¬ Relation.TransGen s.rEdge p p

/-- Forward and reverse adjacency sets are exact mirrors. -/
def MirrorInv (s : Sheet) : Prop :=
  ∀ a b, s.isLive a = true → s.isLive b = true →
    (b ∈ s.rNodesOf a ↔ a ∈ s.lNodesOf b)

/-- Every adjacency-set member names a live cell. -/
def TargetsLive (s : Sheet) : Prop :=
  ∀ a b, s.isLive a = true →
    (b ∈ s.rNodesOf a → s.isLive b = true) ∧
    (b ∈ s.lNodesOf a → s.isLive b = true)

/-- The cell-graph invariant maintained by the Sheet operations. -/
def SheetInv (s : Sheet) : Prop :=
  TargetsLive s ∧ MirrorInv s ∧ Acyclic s

/-- Loop invariant of the cycle-check traversal: visited nodes are clean and
their incoming neighbours have been scheduled. -/
def DfsInv (s : Sheet) (R visited : Finset Pos) (stack : List Pos) : Prop :=
  ∀ v ∈ visited, v ∉ R ∧ ∀ q ∈ s.lNodesOf v, q ∈ visited ∨ q ∈ stack

theorem cycleSearch_false_sound (s : Sheet) (R : Finset Pos) :
    ∀ (fuel : Nat) (visited : Finset Pos) (stack : List Pos),
    Cell.cycleSearch s R fuel visited stack = false →
    DfsInv s R visited stack →
    ∀ x, (x ∈ visited ∨ x ∈ stack) →
    ∀ p, Relation.ReflTransGen s.lEdge x p → p ∉ R := by
  intro fuel
  induction fuel with
  | zero =>
      intro visited stack h
      rw [Cell.cycleSearch] at h
      cases h
  | succ n ih =>
      intro visited stack h hinv x hx p hreach
      match stack with
      | [] =>
          -- the stack is empty: the visited set is closed under incoming
          -- edges and disjoint from R, so any reachable node stays inside it
          have hx2 : x ∈ visited := by
            rcases hx with hx | hx
            · exact hx
            · cases hx
          have hclosed : ∀ y, y ∈ visited → ∀ q ∈ s.lNodesOf y, q ∈ visited := by
            intro y hy q hq
            rcases (hinv y hy).2 q hq with h1 | h1
            · exact h1
            · cases h1
          have : p ∈ visited := by
            induction hreach with
            | refl => exact hx2
            | tail h1 h2 ih2 =>
                exact hclosed _ ih2 _ h2.2
          exact (hinv p this).1
      | current :: rest =>
          rw [Cell.cycleSearch] at h
          by_cases hcr : current ∈ R
          · rw [if_pos hcr] at h; cases h
          · rw [if_neg hcr] at h
            set visited' := insert current visited with hv'
            set nbrs := (posList (s.lNodesOf current)).filter
              (fun q => q ∉ visited') with hnb
            have hinv' : DfsInv s R visited' (nbrs ++ rest) := by
              intro v hv
              rcases Finset.mem_insert.1 hv with hv1 | hv1
              · subst hv1
                refine ⟨hcr, fun q hq => ?_⟩
                by_cases hqv : q ∈ visited'
                · exact Or.inl hqv
                · refine Or.inr (List.mem_append_left _ ?_)
                  rw [hnb]
                  exact List.mem_filter.2
                    ⟨(Finset.mem_sort _).2 hq, by simpa using hqv⟩
              · obtain ⟨h1, h2⟩ := hinv v hv1
                refine ⟨h1, fun q hq => ?_⟩
                rcases h2 q hq with h3 | h3
                · exact Or.inl (Finset.mem_insert_of_mem h3)
                · rcases List.mem_cons.1 h3 with h4 | h4
                  · exact Or.inl (h4 ▸ Finset.mem_insert_self _ _)
                  · exact Or.inr (List.mem_append_right _ h4)
            refine ih visited' (nbrs ++ rest) h hinv' x ?_ p hreach
            rcases hx with hx | hx
            · exact Or.inl (Finset.mem_insert_of_mem hx)
            · rcases List.mem_cons.1 hx with hx1 | hx1
              · exact Or.inl (hx1 ▸ Finset.mem_insert_self _ _)
              · exact Or.inr (List.mem_append_right _ hx1)

theorem wouldCycle_false_sound (s : Sheet) (self : Pos) (impl : CellImpl)
    (h : Cell.WouldIntroduceCircularDependency s self impl = false) :
    ∀ r, r ∈ impl.GetReferencedCells → s.isLive r = true →
      ¬ Relation.ReflTransGen s.lEdge self r := by
  intro r hr hlive hreach
  unfold Cell.WouldIntroduceCircularDependency at h
  dsimp only at h
  have hne : impl.GetReferencedCells.isEmpty = false := by
    rcases hl : impl.GetReferencedCells with _ | ⟨a, l⟩
    · rw [hl] at hr; cases hr
    · rfl
  rw [hne] at h
  simp only [Bool.false_eq_true, if_false] at h
  refine cycleSearch_false_sound s _ _ ∅ [self] h
    (fun v hv => absurd hv (Finset.not_mem_empty v))
    self (Or.inr (List.mem_cons_self _ _)) r hreach ?_
  simp only [List.mem_toFinset, List.mem_filter]
  exact ⟨hr, hlive⟩

/-- Splitting a path at the first occurrence of the forbidden source `z`:
either no edge on the path leaves `z`, or the path passes through `z`. -/
theorem rtg_avoid_or_through (r : Pos → Pos → Prop) (z : Pos) :
    ∀ a b, Relation.ReflTransGen r a b →
      Relation.ReflTransGen (fun x y => r x y ∧ x ≠ z) a b ∨
      (Relation.ReflTransGen r a z ∧ Relation.ReflTransGen r z b) := by
  intro a b h
  induction h using Relation.ReflTransGen.head_induction_on with
  | refl => exact Or.inl Relation.ReflTransGen.refl
  | head hac hcb ih =>
      rename_i a' c'
      by_cases haz : a' = z
      · subst haz
        exact Or.inr ⟨Relation.ReflTransGen.refl,
          Relation.ReflTransGen.head hac hcb⟩
      · rcases ih with ih | ⟨p1, p2⟩
        · exact Or.inl (Relation.ReflTransGen.head ⟨hac, haz⟩ ih)
        · exact Or.inr ⟨Relation.ReflTransGen.head hac p1, p2⟩

/-- A path to `b` can be shortened so that no edge on it leaves `b`. -/
theorem rtg_first_hit (r : Pos → Pos → Prop) (b : Pos) :
    ∀ a, Relation.ReflTransGen r a b →
      a = b ∨ Relation.ReflTransGen (fun x y => r x y ∧ x ≠ b) a b := by
  intro a h
  induction h using Relation.ReflTransGen.head_induction_on with
  | refl => exact Or.inl rfl
  | head hac hcb ih =>
      rename_i a' c'
      by_cases hab : a' = b
      · exact Or.inl hab
      · rcases ih with ih | ih
        · subst ih
          exact Or.inr (Relation.ReflTransGen.single ⟨hac, hab⟩)
        · exact Or.inr (Relation.ReflTransGen.head ⟨hac, hab⟩ ih)

/-- Reverse an outgoing-edge path into an incoming-edge path using the
mirror invariant. -/
theorem rtg_r_to_l (s : Sheet) (hT : TargetsLive s) (hM : MirrorInv s) :
    ∀ a b, Relation.ReflTransGen s.rEdge a b →
      Relation.ReflTransGen s.lEdge b a := by
  intro a b h
  induction h with
  | refl => exact Relation.ReflTransGen.refl
  | tail h1 h2 ih =>
      rename_i y c
      obtain ⟨hlive, hmem⟩ := h2
      have hlivec : s.isLive c = true := (hT y c hlive).1 hmem
      exact Relation.ReflTransGen.head
        ⟨hlivec, (hM y c hlive hlivec).1 hmem⟩ ih

theorem no_self_loop (s : Sheet) (hA : Acyclic s) (p : Pos)
    (hlive : s.isLive p = true) : p ∉ s.rNodesOf p :=
  fun hmem => hA p (Relation.TransGen.single ⟨hlive, hmem⟩)

theorem rNodesOf_cellAt (s : Sheet) (p : Pos) (c : Cell)
    (h : s.cellAt p = some c) : s.rNodesOf p = c.r_nodes := by
  unfold Sheet.rNodesOf; rw [h]

theorem inv_preserved_setPost (s s' : Sheet) (self : Pos) (c0 : Cell)
    (impl : CellImpl) (hinv : SheetInv s)
    (hca : s.cellAt self = some c0)
    (hwc : Cell.WouldIntroduceCircularDependency s self impl = false)
    (hpost : SetPost s s' self c0.r_nodes impl.GetReferencedCells) :
    SheetInv s' := by
  obtain ⟨hT, hM, hA⟩ := hinv
  set refs := impl.GetReferencedCells with hrefs
  have hlive : s.isLive self = true := (isLive_iff_cellAt s self).2 ⟨c0, hca⟩
  have hns : self ∉ refs := wouldCycle_false_self_not_ref s self impl hlive hwc
  have holdout : s.rNodesOf self = c0.r_nodes := rNodesOf_cellAt s self c0 hca
  have hselfloop : self ∉ c0.r_nodes := holdout ▸ no_self_loop s hA self hlive
  have hbase_sub : ∀ a b : Pos,
      b ∈ (if a ∈ c0.r_nodes then (s.lNodesOf a).erase self else s.lNodesOf a) →
      b ∈ s.lNodesOf a := by
    intro a b hb
    by_cases ha : a ∈ c0.r_nodes
    · rw [if_pos ha] at hb; exact Finset.mem_of_mem_erase hb
    · rwa [if_neg ha] at hb
  have hdead_refs : ∀ a, s'.isLive a = true → s.isLive a = false → a ∈ refs := by
    intro a ha' hdead
    rcases (hpost.live_iff a).1 ha' with h | h
    · rw [hdead] at h; cases h
    · exact h
  constructor
  · -- targets of every edge are live
    intro a b ha'
    constructor
    · intro hbr
      by_cases has : a = self
      · subst has
        rw [hpost.r_self, List.mem_toFinset] at hbr
        exact (hpost.live_iff b).2 (Or.inr hbr)
      · by_cases halive : s.isLive a = true
        · rw [hpost.r_other a has halive] at hbr
          exact hpost.live_mono b ((hT a b halive).1 hbr)
        · rw [hpost.r_mat a has (eq_false_of_ne_true halive)] at hbr
          exact absurd hbr (Finset.not_mem_empty b)
    · intro hbl
      by_cases halive : s.isLive a = true
      · rw [hpost.l_live a halive] at hbl
        by_cases har : a ∈ refs
        · rw [if_pos har] at hbl
          rcases Finset.mem_insert.1 hbl with hb1 | hb1
          · subst hb1; exact hpost.live_mono b hlive
          · exact hpost.live_mono b ((hT a b halive).2 (hbase_sub a b hb1))
        · rw [if_neg har] at hbl
          exact hpost.live_mono b ((hT a b halive).2 (hbase_sub a b hbl))
      · rw [hpost.l_mat a (eq_false_of_ne_true halive)] at hbl
        by_cases har : a ∈ refs
        · rw [if_pos har] at hbl
          rw [Finset.mem_singleton.1 hbl]
          exact hpost.live_mono self hlive
        · rw [if_neg har] at hbl
          exact absurd hbl (Finset.not_mem_empty b)
  constructor
  · -- the mirror invariant
    intro a b ha' hb'
    by_cases has : a = self
    · subst has
      rw [hpost.r_self, List.mem_toFinset]
      by_cases hblive : s.isLive b = true
      · rw [hpost.l_live b hblive]
        have hnobase : a ∉
            (if b ∈ c0.r_nodes then (s.lNodesOf b).erase a else s.lNodesOf b) := by
          by_cases hbo : b ∈ c0.r_nodes
          · rw [if_pos hbo]; exact Finset.not_mem_erase _ _
          · rw [if_neg hbo]
            intro hmem
            exact hbo (holdout ▸ (hM a b hlive hblive).2 hmem)
        by_cases hbr : b ∈ refs
        · simp [hbr, hnobase]
        · simp [hbr, hnobase]
      · have hbrefs : b ∈ refs := hdead_refs b hb' (eq_false_of_ne_true hblive)
        rw [hpost.l_mat b (eq_false_of_ne_true hblive), if_pos hbrefs]
        simp [hbrefs]
    · by_cases halive : s.isLive a = true
      · rw [hpost.r_other a has halive]
        by_cases hbs : b = self
        · subst hbs
          rw [hpost.l_live b hlive, if_neg hns, if_neg hselfloop]
          exact hM a b halive hlive
        · by_cases hblive : s.isLive b = true
          · rw [hpost.l_live b hblive]
            have hbase : a ∈
                (if b ∈ c0.r_nodes then (s.lNodesOf b).erase self
                 else s.lNodesOf b) ↔ a ∈ s.lNodesOf b := by
              by_cases hbo : b ∈ c0.r_nodes
              · rw [if_pos hbo]
                exact ⟨Finset.mem_of_mem_erase,
                  fun h => Finset.mem_erase.2 ⟨has, h⟩⟩
              · rw [if_neg hbo]
            by_cases hbr : b ∈ refs
            · rw [if_pos hbr]
              rw [hM a b halive hblive]
              constructor
              · intro h; exact Finset.mem_insert_of_mem (hbase.2 h)
              · intro h
                rcases Finset.mem_insert.1 h with h1 | h1
                · exact absurd h1 has
                · exact hbase.1 h1
            · rw [if_neg hbr, hbase]
              exact hM a b halive hblive
          · have hbrefs : b ∈ refs := hdead_refs b hb' (eq_false_of_ne_true hblive)
            rw [hpost.l_mat b (eq_false_of_ne_true hblive), if_pos hbrefs]
            constructor
            · intro h
              exact absurd ((hT a b halive).1 h)
                (by rw [eq_false_of_ne_true hblive]; simp)
            · intro h
              exact absurd (Finset.mem_singleton.1 h) has
      · have harefs : a ∈ refs := hdead_refs a ha' (eq_false_of_ne_true halive)
        rw [hpost.r_mat a has (eq_false_of_ne_true halive)]
        constructor
        · intro h; exact absurd h (Finset.not_mem_empty b)
        · intro h
          exfalso
          by_cases hblive : s.isLive b = true
          · rw [hpost.l_live b hblive] at h
            have hmem : a ∈ s.lNodesOf b := by
              by_cases hbr : b ∈ refs
              · rw [if_pos hbr] at h
                rcases Finset.mem_insert.1 h with h1 | h1
                · exact absurd h1 has
                · exact hbase_sub b a h1
              · rw [if_neg hbr] at h
                exact hbase_sub b a h
            have := (hT b a hblive).2 hmem
            rw [eq_false_of_ne_true halive] at this
            cases this
          · rw [hpost.l_mat b (eq_false_of_ne_true hblive)] at h
            by_cases hbr : b ∈ refs
            · rw [if_pos hbr] at h
              exact has (Finset.mem_singleton.1 h)
            · rw [if_neg hbr] at h
              exact absurd h (Finset.not_mem_empty a)
  · -- acyclicity
    intro z hcyc
    have hlift : ∀ x w, s'.rEdge x w ∧ x ≠ self → s.rEdge x w := by
      rintro x w ⟨⟨hlx, hmem⟩, hxs⟩
      by_cases hxlive : s.isLive x = true
      · exact ⟨hxlive, by rwa [hpost.r_other x hxs hxlive] at hmem⟩
      · rw [hpost.r_mat x hxs (eq_false_of_ne_true hxlive)] at hmem
        exact absurd hmem (Finset.not_mem_empty w)
    have hmono : ∀ a b,
        Relation.ReflTransGen (fun x w => s'.rEdge x w ∧ x ≠ self) a b →
        Relation.ReflTransGen s.rEdge a b :=
      fun a b h => Relation.ReflTransGen.mono hlift h
    have hfinal : ∀ y, s'.rEdge self y →
        Relation.ReflTransGen s.rEdge y self → False := by
      intro y hedge hpath
      have hyrefs : y ∈ refs := by
        have := hedge.2
        rwa [hpost.r_self, List.mem_toFinset] at this
      have hyne : y ≠ self := fun h => hns (h ▸ hyrefs)
      have hylive : s.isLive y = true := by
        rcases Relation.ReflTransGen.cases_head hpath with h | ⟨c, hc, _⟩
        · exact absurd h hyne
        · exact hc.1
      exact wouldCycle_false_sound s self impl hwc y hyrefs hylive
        (rtg_r_to_l s hT hM y self hpath)
    obtain ⟨y, hzy, hyz⟩ := (Relation.TransGen.head'_iff).1 hcyc
    rcases rtg_avoid_or_through s'.rEdge self y z hyz with hav | ⟨p1, p2⟩
    · have hyzs : Relation.ReflTransGen s.rEdge y z := hmono _ _ hav
      by_cases hzself : z = self
      · subst hzself
        exact hfinal y hzy hyzs
      · exact hA z (Relation.TransGen.head' (hlift z y ⟨hzy, hzself⟩) hyzs)
    · have hss : Relation.TransGen s'.rEdge self self :=
        Relation.TransGen.trans_right p2 (Relation.TransGen.head' hzy p1)
      obtain ⟨r0, hsr, pr⟩ := (Relation.TransGen.head'_iff).1 hss
      have hr0refs : r0 ∈ refs := by
        have := hsr.2
        rwa [hpost.r_self, List.mem_toFinset] at this
      have hr0ne : r0 ≠ self := fun h => hns (h ▸ hr0refs)
      rcases rtg_first_hit s'.rEdge self r0 pr with h | hres
      · exact hr0ne h
      · exact hfinal r0 hsr (hmono _ _ hres)

theorem isLive_empty (q : Pos) : Sheet.empty.isLive q = false := rfl

theorem inv_empty : SheetInv Sheet.empty := by
  refine ⟨fun a b ha => ?_, fun a b ha hb => ?_, fun p hcyc => ?_⟩
  · rw [isLive_empty] at ha; cases ha
  · rw [isLive_empty] at ha; cases ha
  · rcases (Relation.TransGen.head'_iff).1 hcyc with ⟨c, hc, _⟩
    have h1 := hc.1
    rw [isLive_empty] at h1
    cases h1

theorem inv_sameShape (s s' : Sheet) (hsh : SameShape s s') (hinv : SheetInv s) :
    SheetInv s' := by
  obtain ⟨hT, hM, hA⟩ := hinv
  have hre : ∀ a b, s'.rEdge a b ↔ s.rEdge a b := by
    intro a b
    unfold Sheet.rEdge
    rw [hsh.2.2.1 a, hsh.2.2.2.2 a]
  refine ⟨fun a b ha => ?_, fun a b ha hb => ?_, fun p hcyc => ?_⟩
  · rw [hsh.2.2.1 a] at ha
    rw [hsh.2.2.2.2 a, hsh.2.2.2.1 a, hsh.2.2.1 b]
    exact hT a b ha
  · rw [hsh.2.2.1 a] at ha
    rw [hsh.2.2.1 b] at hb
    rw [hsh.2.2.2.2 a, hsh.2.2.2.1 b]
    exact hM a b ha hb
  · exact hA p (Relation.TransGen.mono (fun a b h => (hre a b).1 h) hcyc)

theorem isLive_of_lookup_none (s : Sheet) (q : Pos)
    (h : lookupCell s.cells q = none) : s.isLive q = false := by
  unfold Sheet.isLive; rw [h]

theorem inv_append_fresh (s : Sheet) (pos : Pos)
    (habs : lookupCell s.cells pos = none) (hinv : SheetInv s) :
    SheetInv ⟨s.cells ++ [(pos, some Cell.new)]⟩ := by
  obtain ⟨hT, hM, hA⟩ := hinv
  set sm : Sheet := ⟨s.cells ++ [(pos, some Cell.new)]⟩ with hsm
  have hlm : ∀ q, lookupCell sm.cells q =
      if q = pos then some (some Cell.new) else lookupCell s.cells q :=
    fun q => lookupCell_append_absent s.cells pos (some Cell.new) q habs
  have hdead : s.isLive pos = false := isLive_of_lookup_none s pos habs
  have hmlive : ∀ q, sm.isLive q = true ↔ (q = pos ∨ s.isLive q = true) := by
    intro q
    by_cases hq : q = pos
    · subst hq
      rw [isLive_lookup]
      simp [hlm q]
    · rw [isLive_lookup, isLive_lookup, hlm q, if_neg hq]
      simp [hq]
  have hrm : ∀ q, sm.rNodesOf q = if q = pos then ∅ else s.rNodesOf q := by
    intro q
    rw [rNodesOf_as_lookup, rNodesOf_as_lookup, hlm q]
    by_cases hq : q = pos
    · simp [hq, Cell.new]
    · simp [hq]
  have hlmn : ∀ q, sm.lNodesOf q = if q = pos then ∅ else s.lNodesOf q := by
    intro q
    rw [lNodesOf_as_lookup, lNodesOf_as_lookup, hlm q]
    by_cases hq : q = pos
    · simp [hq, Cell.new]
    · simp [hq]
  refine ⟨fun a b ha => ⟨fun hbr => ?_, fun hbl => ?_⟩,
    fun a b ha hb => ?_, fun p hcyc => ?_⟩
  · rw [hrm a] at hbr
    by_cases haq : a = pos
    · rw [if_pos haq] at hbr; exact absurd hbr (Finset.not_mem_empty b)
    · rw [if_neg haq] at hbr
      have halive : s.isLive a = true := by
        rcases (hmlive a).1 ha with h | h
        · exact absurd h haq
        · exact h
      exact (hmlive b).2 (Or.inr ((hT a b halive).1 hbr))
  · rw [hlmn a] at hbl
    by_cases haq : a = pos
    · rw [if_pos haq] at hbl; exact absurd hbl (Finset.not_mem_empty b)
    · rw [if_neg haq] at hbl
      have halive : s.isLive a = true := by
        rcases (hmlive a).1 ha with h | h
        · exact absurd h haq
        · exact h
      exact (hmlive b).2 (Or.inr ((hT a b halive).2 hbl))
  · rw [hrm a, hlmn b]
    by_cases haq : a = pos
    · rw [if_pos haq]
      by_cases hbq : b = pos
      · rw [if_pos hbq]
        simp
      · rw [if_neg hbq]
        constructor
        · intro h; exact absurd h (Finset.not_mem_empty b)
        · intro h
          have hblive : s.isLive b = true := by
            rcases (hmlive b).1 hb with h1 | h1
            · exact absurd h1 hbq
            · exact h1
          have := (hT b a hblive).2 h
          rw [haq, hdead] at this; cases this
    · rw [if_neg haq]
      have halive : s.isLive a = true := by
        rcases (hmlive a).1 ha with h | h
        · exact absurd h haq
        · exact h
      by_cases hbq : b = pos
      · rw [if_pos hbq]
        constructor
        · intro h
          have := (hT a b halive).1 h
          rw [hbq, hdead] at this; cases this
        · intro h; exact absurd h (Finset.not_mem_empty a)
      · rw [if_neg hbq]
        have hblive : s.isLive b = true := by
          rcases (hmlive b).1 hb with h1 | h1
          · exact absurd h1 hbq
          · exact h1
        exact hM a b halive hblive
  · refine hA p (Relation.TransGen.mono (fun a b h => ?_) hcyc)
    obtain ⟨ha, hmem⟩ := h
    rw [hrm a] at hmem
    by_cases haq : a = pos
    · rw [if_pos haq] at hmem; exact absurd hmem (Finset.not_mem_empty b)
    · rw [if_neg haq] at hmem
      have halive : s.isLive a = true := by
        rcases (hmlive a).1 ha with h1 | h1
        · exact absurd h1 haq
        · exact h1
      exact ⟨halive, hmem⟩

theorem inv_reset_null (s : Sheet) (pos : Pos) (c : Cell)
    (h : lookupCell s.cells pos = some (some c))
    (hln : s.lNodesOf pos = ∅) (hrn : s.rNodesOf pos = ∅)
    (hinv : SheetInv s) : SheetInv ⟨updateCell s.cells pos none⟩ := by
  obtain ⟨hT, hM, hA⟩ := hinv
  set sr : Sheet := ⟨updateCell s.cells pos none⟩ with hsr
  have hlr : ∀ q, lookupCell sr.cells q =
      if q = pos then some none else lookupCell s.cells q := by
    intro q
    rw [hsr]
    show lookupCell (updateCell s.cells pos none) q = _
    rw [lookupCell_updateCell, h]
  have hrlive : ∀ q, sr.isLive q = true ↔ (q ≠ pos ∧ s.isLive q = true) := by
    intro q
    by_cases hq : q = pos
    · subst hq
      rw [isLive_lookup]
      simp [hlr q]
    · rw [isLive_lookup, isLive_lookup, hlr q, if_neg hq]
      simp [hq]
  have hrr : ∀ q, sr.rNodesOf q = if q = pos then ∅ else s.rNodesOf q := by
    intro q
    rw [rNodesOf_as_lookup, rNodesOf_as_lookup, hlr q]
    by_cases hq : q = pos
    · simp [hq]
    · simp [hq]
  have hrl : ∀ q, sr.lNodesOf q = if q = pos then ∅ else s.lNodesOf q := by
    intro q
    rw [lNodesOf_as_lookup, lNodesOf_as_lookup, hlr q]
    by_cases hq : q = pos
    · simp [hq]
    · simp [hq]
  have hnotarget : ∀ a, s.isLive a = true → pos ∉ s.rNodesOf a := by
    intro a halive hmem
    have hposlive : s.isLive pos = true := (isLive_lookup s pos).2 ⟨c, h⟩
    have := (hM a pos halive hposlive).1 hmem
    rw [hln] at this
    exact absurd this (Finset.not_mem_empty a)
  have hnoltarget : ∀ a, s.isLive a = true → pos ∉ s.lNodesOf a := by
    intro a halive hmem
    have hposlive : s.isLive pos = true := (isLive_lookup s pos).2 ⟨c, h⟩
    have := (hM pos a hposlive halive).2 hmem
    rw [hrn] at this
    exact absurd this (Finset.not_mem_empty a)
  refine ⟨fun a b ha => ⟨fun hbr => ?_, fun hbl => ?_⟩,
    fun a b ha hb => ?_, fun p hcyc => ?_⟩
  · obtain ⟨hap, halive⟩ := (hrlive a).1 ha
    rw [hrr a, if_neg hap] at hbr
    refine (hrlive b).2 ⟨?_, (hT a b halive).1 hbr⟩
    intro hbq; subst hbq
    exact hnotarget a halive hbr
  · obtain ⟨hap, halive⟩ := (hrlive a).1 ha
    rw [hrl a, if_neg hap] at hbl
    refine (hrlive b).2 ⟨?_, (hT a b halive).2 hbl⟩
    intro hbq; subst hbq
    exact hnoltarget a halive hbl
  · obtain ⟨hap, halive⟩ := (hrlive a).1 ha
    obtain ⟨hbp, hblive⟩ := (hrlive b).1 hb
    rw [hrr a, if_neg hap, hrl b, if_neg hbp]
    exact hM a b halive hblive
  · refine hA p (Relation.TransGen.mono (fun a b hab => ?_) hcyc)
    obtain ⟨ha, hmem⟩ := hab
    obtain ⟨hap, halive⟩ := (hrlive a).1 ha
    rw [hrr a, if_neg hap] at hmem
    exact ⟨halive, hmem⟩

/-! ### Operation-level characterizations and the reachability relation -/

theorem sheet_setCell_invalid (parse : String → Option FormulaObj) (s : Sheet)
    (pos : Pos) (text : String) (hv : ¬ pos.IsValid = true) :
    SheetSetCell parse s pos text = .exn .invalidPosition s := by
  unfold SheetSetCell
  rw [Sheet.SetCell, if_pos (by simp [eq_false_of_ne_true hv])]

theorem sheet_setCell_live (parse : String → Option FormulaObj) (s : Sheet)
    (pos : Pos) (text : String) (c : Cell) (hv : pos.IsValid = true)
    (hx : lookupCell s.cells pos = some (some c)) :
    SheetSetCell parse s pos text = Cell.Set 1 parse s pos text := by
  unfold SheetSetCell
  rw [Sheet.SetCell, if_neg (by simp [hv])]
  dsimp only
  rw [hx]
  dsimp only
  rw [hx]

theorem sheet_setCell_nullentry (parse : String → Option FormulaObj)
    (s : Sheet) (pos : Pos) (text : String) (hv : pos.IsValid = true)
    (hx : lookupCell s.cells pos = some none) :
    SheetSetCell parse s pos text = .ub := by
  unfold SheetSetCell
  rw [Sheet.SetCell, if_neg (by simp [hv])]
  dsimp only
  rw [hx]
  dsimp only
  rw [hx]

theorem sheet_setCell_absent (parse : String → Option FormulaObj) (s : Sheet)
    (pos : Pos) (text : String) (hv : pos.IsValid = true)
    (hx : lookupCell s.cells pos = none) :
    SheetSetCell parse s pos text =
      Cell.Set 1 parse ⟨s.cells ++ [(pos, some Cell.new)]⟩ pos text := by
  unfold SheetSetCell
  rw [Sheet.SetCell, if_neg (by simp [hv])]
  dsimp only
  rw [hx]
  dsimp only
  rw [lookupCell_append_absent _ _ _ _ hx, if_pos rfl]

theorem sheet_setCell_ok_inv (parse : String → Option FormulaObj) (s : Sheet)
    (pos : Pos) (text : String) (s' : Sheet) (hinv : SheetInv s)
    (hok : SheetSetCell parse s pos text = .ok () s') : SheetInv s' := by
  by_cases hv : pos.IsValid = true
  · rcases hx : lookupCell s.cells pos with _ | ⟨_ | c⟩
    · rw [sheet_setCell_absent parse s pos text hv hx] at hok
      obtain ⟨impl, c0, hci, hwc, hca, hns, hpost⟩ :=
        set_ok_char 1 parse _ pos text s' hok
      exact inv_preserved_setPost _ s' pos c0 impl
        (inv_append_fresh s pos hx hinv) hca hwc hpost
    · rw [sheet_setCell_nullentry parse s pos text hv hx] at hok
      cases hok
    · rw [sheet_setCell_live parse s pos text c hv hx] at hok
      obtain ⟨impl, c0, hci, hwc, hca, hns, hpost⟩ :=
        set_ok_char 1 parse s pos text s' hok
      exact inv_preserved_setPost s s' pos c0 impl hinv hca hwc hpost
  · rw [sheet_setCell_invalid parse s pos text hv] at hok
    cases hok

theorem sheet_setCell_exn_char (parse : String → Option FormulaObj) (s : Sheet)
    (pos : Pos) (text : String) (e : Exn) (s'' : Sheet)
    (hexn : SheetSetCell parse s pos text = .exn e s'') :
    (e = .invalidPosition ∧ s'' = s ∧ pos.IsValid = false) ∨
    ((e = .formulaError ∨ e = .circularDependency) ∧ pos.IsValid = true ∧
      ((lookupCell s.cells pos ≠ none ∧ s'' = s) ∨
       (lookupCell s.cells pos = none ∧
        s'' = ⟨s.cells ++ [(pos, some Cell.new)]⟩))) := by
  by_cases hv : pos.IsValid = true
  · rcases hx : lookupCell s.cells pos with _ | ⟨_ | c⟩
    · rw [sheet_setCell_absent parse s pos text hv hx] at hexn
      obtain ⟨hs, he⟩ := set_exn_char 1 parse _ pos text e s'' hexn
      exact Or.inr ⟨he, hv, Or.inr ⟨rfl, hs⟩⟩
    · rw [sheet_setCell_nullentry parse s pos text hv hx] at hexn
      cases hexn
    · rw [sheet_setCell_live parse s pos text c hv hx] at hexn
      obtain ⟨hs, he⟩ := set_exn_char 1 parse s pos text e s'' hexn
      exact Or.inr ⟨he, hv, Or.inl ⟨by simp, hs⟩⟩
  · rw [sheet_setCell_invalid parse s pos text hv] at hexn
    cases hexn
    exact Or.inl ⟨rfl, rfl, eq_false_of_ne_true hv⟩

theorem sheet_setCell_exn_inv (parse : String → Option FormulaObj) (s : Sheet)
    (pos : Pos) (text : String) (e : Exn) (s'' : Sheet) (hinv : SheetInv s)
    (hexn : SheetSetCell parse s pos text = .exn e s'') : SheetInv s'' := by
  rcases sheet_setCell_exn_char parse s pos text e s'' hexn with
    ⟨_, hs, _⟩ | ⟨_, _, ⟨_, hs⟩ | ⟨hx, hs⟩⟩
  · exact hs ▸ hinv
  · exact hs ▸ hinv
  · exact hs ▸ inv_append_fresh s pos hx hinv

theorem sheet_clearCell_invalid (parse : String → Option FormulaObj)
    (s : Sheet) (pos : Pos) (hv : ¬ pos.IsValid = true) :
    SheetClearCell parse s pos = .exn .invalidPosition s := by
  unfold SheetClearCell
  rw [Sheet.ClearCell, if_pos (by simp [eq_false_of_ne_true hv])]

theorem sheet_clearCell_dead (parse : String → Option FormulaObj) (s : Sheet)
    (pos : Pos) (hv : pos.IsValid = true)
    (hx : lookupCell s.cells pos = none ∨ lookupCell s.cells pos = some none) :
    SheetClearCell parse s pos = .ok () s := by
  unfold SheetClearCell
  rw [Sheet.ClearCell, if_neg (by simp [hv])]
  rcases hx with hx | hx <;> rw [hx]

theorem sheet_clearCell_live (parse : String → Option FormulaObj) (s : Sheet)
    (pos : Pos) (c : Cell) (hv : pos.IsValid = true)
    (hx : lookupCell s.cells pos = some (some c)) :
    SheetClearCell parse s pos =
      (match Cell.Set 1 parse s pos "" with
       | .ok _ s2 =>
           (match lookupCell s2.cells pos with
            | some (some c2) =>
                if c2.l_nodes = ∅ then
                  OpResult.ok () ⟨updateCell s2.cells pos none⟩
                else OpResult.ok () s2
            | _ => OpResult.ok () s2)
       | r => r) := by
  unfold SheetClearCell
  rw [Sheet.ClearCell, if_neg (by simp [hv])]
  rw [hx]
  dsimp only
  unfold Cell.Clear
  rfl

theorem sheet_clearCell_ok_inv (parse : String → Option FormulaObj) (s : Sheet)
    (pos : Pos) (s' : Sheet) (hinv : SheetInv s)
    (hok : SheetClearCell parse s pos = .ok () s') : SheetInv s' := by
  by_cases hv : pos.IsValid = true
  · rcases hx : lookupCell s.cells pos with _ | ⟨_ | c⟩
    · rw [sheet_clearCell_dead parse s pos hv (Or.inl hx)] at hok
      cases hok; exact hinv
    · rw [sheet_clearCell_dead parse s pos hv (Or.inr hx)] at hok
      cases hok; exact hinv
    · rw [sheet_clearCell_live parse s pos c hv hx] at hok
      cases hset : Cell.Set 1 parse s pos "" with
      | ok v s2 =>
          rw [hset] at hok
          dsimp only at hok
          obtain ⟨impl, c0, hci, hwc, hca, hns, hpost⟩ :=
            set_ok_char 1 parse s pos "" s2 hset
          have hinv2 : SheetInv s2 :=
            inv_preserved_setPost s s2 pos c0 impl hinv hca hwc hpost
          have himpl : impl = CellImpl.empty := by
            rw [createImpl_empty parse] at hci
            cases hci; rfl
          rcases hx2 : lookupCell s2.cells pos with _ | ⟨_ | c2⟩
          · rw [hx2] at hok; cases hok; exact hinv2
          · rw [hx2] at hok; cases hok; exact hinv2
          · rw [hx2] at hok
            dsimp only at hok
            by_cases hlz : c2.l_nodes = ∅
            · rw [if_pos hlz] at hok
              cases hok
              refine inv_reset_null s2 pos c2 hx2 ?_ ?_ hinv2
              · rw [lNodesOf_as_lookup, hx2]; exact hlz
              · rw [hpost.r_self, himpl]
                simp [CellImpl.GetReferencedCells]
            · rw [if_neg hlz] at hok
              cases hok; exact hinv2
      | exn e1 st =>
          rw [hset] at hok; cases hok
      | ub => rw [hset] at hok; cases hok
      | hang => rw [hset] at hok; cases hok
  · rw [sheet_clearCell_invalid parse s pos hv] at hok
    cases hok

theorem sheet_clearCell_exn_char (parse : String → Option FormulaObj)
    (s : Sheet) (pos : Pos) (e : Exn) (s'' : Sheet)
    (hexn : SheetClearCell parse s pos = .exn e s'') : s'' = s := by
  by_cases hv : pos.IsValid = true
  · rcases hx : lookupCell s.cells pos with _ | ⟨_ | c⟩
    · rw [sheet_clearCell_dead parse s pos hv (Or.inl hx)] at hexn
      cases hexn
    · rw [sheet_clearCell_dead parse s pos hv (Or.inr hx)] at hexn
      cases hexn
    · rw [sheet_clearCell_live parse s pos c hv hx] at hexn
      cases hset : Cell.Set 1 parse s pos "" with
      | ok v s2 =>
          rw [hset] at hexn
          dsimp only at hexn
          rcases hx2 : lookupCell s2.cells pos with _ | ⟨_ | c2⟩
          · rw [hx2] at hexn; cases hexn
          · rw [hx2] at hexn; cases hexn
          · rw [hx2] at hexn
            dsimp only at hexn
            by_cases hlz : c2.l_nodes = ∅
            · rw [if_pos hlz] at hexn; cases hexn
            · rw [if_neg hlz] at hexn; cases hexn
      | exn e1 st =>
          rw [hset] at hexn
          cases hexn
          exact (set_exn_char 1 parse s pos "" e s'' hset).1
      | ub => rw [hset] at hexn; cases hexn
      | hang => rw [hset] at hexn; cases hexn
  · rw [sheet_clearCell_invalid parse s pos hv] at hexn
    cases hexn
    rfl

/-- The states reachable through the public Sheet surface.  The `eval` step
over-approximates the cache writes performed by `GetValue` during
`PrintValues`/value queries: those only replace cache payloads, which is a
shape-preserving mutation. -/
inductive Reachable (parse : String → Option FormulaObj) : Sheet → Prop where
  | init : Reachable parse Sheet.empty
  | set_ok {s s' : Sheet} {p : Pos} {t : String} :
      Reachable parse s → SheetSetCell parse s p t = .ok () s' →
      Reachable parse s'
  | set_exn {s s' : Sheet} {p : Pos} {t : String} {e : Exn} :
      Reachable parse s → SheetSetCell parse s p t = .exn e s' →
      Reachable parse s'
  | clear_ok {s s' : Sheet} {p : Pos} :
      Reachable parse s → SheetClearCell parse s p = .ok () s' →
      Reachable parse s'
  | clear_exn {s s' : Sheet} {p : Pos} {e : Exn} :
      Reachable parse s → SheetClearCell parse s p = .exn e s' →
      Reachable parse s'
  | eval {s s' : Sheet} :
      Reachable parse s → SameShape s s' → Reachable parse s'

theorem inv_reachable (parse : String → Option FormulaObj) (s : Sheet)
    (h : Reachable parse s) : SheetInv s := by
  induction h with
  | init => exact inv_empty
  | set_ok hr hok ih => exact sheet_setCell_ok_inv parse _ _ _ _ ih hok
  | set_exn hr hexn ih => exact sheet_setCell_exn_inv parse _ _ _ _ _ ih hexn
  | clear_ok hr hok ih => exact sheet_clearCell_ok_inv parse _ _ _ ih hok
  | clear_exn hr hexn ih =>
      exact (sheet_clearCell_exn_char parse _ _ _ _ hexn) ▸ ih
  | eval hr hsh ih => exact inv_sameShape _ _ hsh ih

/-! ### Closed-form executions of the concrete scenarios -/

theorem updateCell_append_absent (l : List (Pos × Option Cell)) (p : Pos)
    (v v' : Option Cell) (h : lookupCell l p = none) :
    updateCell (l ++ [(p, v)]) p v' = l ++ [(p, v')] := by
  induction l with
  | nil => simp [updateCell]
  | cons hd tl ih =>
      obtain ⟨a, c⟩ := hd
      by_cases hpa : p = a
      · subst hpa; simp [lookupCell] at h
      · simp [lookupCell, hpa] at h
        simp [updateCell, hpa, ih h]

theorem updateCell_updateCell (l : List (Pos × Option Cell)) (p : Pos)
    (v v' : Option Cell) :
    updateCell (updateCell l p v) p v' = updateCell l p v' := by
  induction l with
  | nil => simp [updateCell]
  | cons hd tl ih =>
      obtain ⟨a, c⟩ := hd
      by_cases hpa : p = a
      · subst hpa; simp [updateCell]
      · simp [updateCell, hpa, ih]

theorem wouldCycle_noref (s : Sheet) (self : Pos) (impl : CellImpl)
    (h : impl.GetReferencedCells = []) :
    Cell.WouldIntroduceCircularDependency s self impl = false := by
  unfold Cell.WouldIntroduceCircularDependency
  dsimp only
  rw [h]
  rfl

theorem invalidate_on_isolated (n : Nat) (s : Sheet) (p : Pos) (c : Cell)
    (h : lookupCell s.cells p = some (some c)) (hl : c.l_nodes = ∅) :
    Cell.InvalidateCacheRecursive (n + 1) s p true =
      some (s.modifyCell p
        (fun c0 => { c0 with impl := c0.impl.InvalidateCache })) := by
  have hca : s.cellAt p = some c := by
    unfold Sheet.cellAt; rw [h]
  rw [Cell.InvalidateCacheRecursive, hca]
  dsimp only
  rw [Bool.or_true, if_pos rfl, hl, posList_empty]
  rfl

theorem setCell_absent_noref (parse : String → Option FormulaObj) (s : Sheet)
    (pos : Pos) (text : String) (impl : CellImpl)
    (hv : pos.IsValid = true) (habs : lookupCell s.cells pos = none)
    (hci : Cell.CreateImpl parse text = .ok impl)
    (hrefs : impl.GetReferencedCells = []) :
    SheetSetCell parse s pos text =
      .ok () ⟨s.cells ++ [(pos, some ⟨impl.InvalidateCache, ∅, ∅⟩)]⟩ := by
  rw [sheet_setCell_absent parse s pos text hv habs]
  set sm : Sheet := ⟨s.cells ++ [(pos, some Cell.new)]⟩ with hsm
  have hlm : lookupCell sm.cells pos = some (some Cell.new) := by
    rw [hsm]
    show lookupCell (s.cells ++ [(pos, some Cell.new)]) pos = _
    rw [lookupCell_append_absent _ _ _ _ habs, if_pos rfl]
  have hca : sm.cellAt pos = some Cell.new := by
    unfold Sheet.cellAt; rw [hlm]
  rw [Cell.Set, hci]
  dsimp only
  rw [wouldCycle_noref sm pos impl hrefs]
  simp only [Bool.false_eq_true, if_false]
  rw [hca]
  dsimp only
  set c1 : Cell := { impl := impl, l_nodes := ∅, r_nodes := ∅ } with hc1
  have hmod1 : sm.modifyCell pos (fun c => { c with impl := impl }) =
      ⟨s.cells ++ [(pos, some c1)]⟩ := by
    unfold Sheet.modifyCell
    rw [hlm]
    show (⟨updateCell sm.cells pos (some { Cell.new with impl := impl })⟩ : Sheet) = _
    rw [hsm]
    show (⟨updateCell (s.cells ++ [(pos, some Cell.new)]) pos (some c1)⟩ : Sheet) = _
    rw [updateCell_append_absent _ _ _ _ habs]
  rw [hmod1]
  have hrn : Cell.new.r_nodes = (∅ : Finset Pos) := rfl
  rw [hrn, posList_empty]
  set sm1 : Sheet := ⟨s.cells ++ [(pos, some c1)]⟩ with hsm1
  have hlm1 : lookupCell sm1.cells pos = some (some c1) := by
    rw [hsm1]
    show lookupCell (s.cells ++ [(pos, some c1)]) pos = _
    rw [lookupCell_append_absent _ _ _ _ habs, if_pos rfl]
  have herase : Cell.eraseFromIncoming sm1 pos [] = sm1 := rfl
  rw [herase]
  have hmod2 : sm1.modifyCell pos (fun c => { c with r_nodes := ∅ }) = sm1 :=
    modify_id_of_fix sm1 pos _ c1 hlm1 rfl
  rw [hmod2, hrefs, Cell.UpdateDependencies]
  dsimp only
  obtain ⟨m, hm⟩ : ∃ m, sm1.cells.length + 2 = m + 1 :=
    ⟨sm1.cells.length + 1, rfl⟩
  rw [hm, invalidate_on_isolated m sm1 pos c1 hlm1 rfl]
  dsimp only
  have hmod3 : sm1.modifyCell pos
      (fun c0 => { c0 with impl := c0.impl.InvalidateCache }) =
      ⟨s.cells ++ [(pos, some ⟨impl.InvalidateCache, ∅, ∅⟩)]⟩ := by
    unfold Sheet.modifyCell
    rw [hlm1, hsm1]
    show (⟨updateCell (s.cells ++ [(pos, some c1)]) pos
      (some { c1 with impl := c1.impl.InvalidateCache })⟩ : Sheet) = _
    rw [updateCell_append_absent _ _ _ _ habs]
  rw [hmod3]

theorem setCell_absent_cycle (parse : String → Option FormulaObj) (s : Sheet)
    (pos : Pos) (text : String) (impl : CellImpl)
    (hv : pos.IsValid = true) (habs : lookupCell s.cells pos = none)
    (hci : Cell.CreateImpl parse text = .ok impl)
    (hwc : Cell.WouldIntroduceCircularDependency
      ⟨s.cells ++ [(pos, some Cell.new)]⟩ pos impl = true) :
    SheetSetCell parse s pos text =
      .exn .circularDependency ⟨s.cells ++ [(pos, some Cell.new)]⟩ := by
  rw [sheet_setCell_absent parse s pos text hv habs]
  rw [Cell.Set, hci]
  dsimp only
  rw [hwc, if_pos rfl]

theorem clearCell_live_isolated (parse : String → Option FormulaObj)
    (s : Sheet) (pos : Pos) (c0 : Cell)
    (hv : pos.IsValid = true)
    (hx : lookupCell s.cells pos = some (some c0))
    (hl : c0.l_nodes = ∅) (hr : c0.r_nodes = ∅) :
    SheetClearCell parse s pos = .ok () ⟨updateCell s.cells pos none⟩ := by
  rw [sheet_clearCell_live parse s pos c0 hv hx]
  have hca : s.cellAt pos = some c0 := by
    unfold Sheet.cellAt; rw [hx]
  have hceq : ({ c0 with impl := CellImpl.empty } : Cell) = Cell.new := by
    simp only [hl, hr]
    rfl
  have hset : Cell.Set 1 parse s pos "" =
      .ok () ⟨updateCell s.cells pos (some Cell.new)⟩ := by
    rw [Cell.Set, createImpl_empty]
    dsimp only
    rw [wouldCycle_empty]
    simp only [Bool.false_eq_true, if_false]
    rw [hca]
    dsimp only
    have hmod1 : s.modifyCell pos (fun c => { c with impl := CellImpl.empty }) =
        ⟨updateCell s.cells pos (some Cell.new)⟩ := by
      unfold Sheet.modifyCell
      rw [hx]
      dsimp only
      rw [hceq]
    rw [hmod1]
    rw [hr, posList_empty]
    set su : Sheet := ⟨updateCell s.cells pos (some Cell.new)⟩ with hsu
    have hlu : lookupCell su.cells pos = some (some Cell.new) := by
      rw [hsu]
      show lookupCell (updateCell s.cells pos (some Cell.new)) pos = _
      rw [lookupCell_updateCell, if_pos rfl, hx]
    have herase : Cell.eraseFromIncoming su pos [] = su := rfl
    rw [herase]
    have hmod2 : su.modifyCell pos (fun c => { c with r_nodes := ∅ }) = su :=
      modify_id_of_fix su pos _ Cell.new hlu rfl
    rw [hmod2]
    have hrefs : CellImpl.empty.GetReferencedCells = ([] : List Pos) := rfl
    rw [hrefs, Cell.UpdateDependencies]
    dsimp only
    obtain ⟨m, hm⟩ : ∃ m, su.cells.length + 2 = m + 1 :=
      ⟨su.cells.length + 1, rfl⟩
    rw [hm, invalidate_on_fresh m su pos hlu]
  rw [hset]
  dsimp only
  have hlu2 : lookupCell (updateCell s.cells pos (some Cell.new)) pos =
      some (some Cell.new) := by
    rw [lookupCell_updateCell, if_pos rfl, hx]
  rw [hlu2]
  dsimp only
  rw [if_pos (show Cell.new.l_nodes = ∅ from rfl)]
  show OpResult.ok () ⟨updateCell (updateCell s.cells pos (some Cell.new)) pos none⟩ = _
  rw [updateCell_updateCell]

/-! ### Facts about the formula layer -/

theorem uniqueConsecutive_chain : ∀ (l : List Pos),
    List.Chain' (fun a b => a ≠ b) (uniqueConsecutive l) := by
  have hhead : ∀ (b : Pos) (rest : List Pos),
      ∃ t, uniqueConsecutive (b :: rest) = b :: t ∨
        (∃ c, uniqueConsecutive (b :: rest) = uniqueConsecutive (c :: t) ∧
          rest = c :: t) := by
    intro b rest
    match rest with
    | [] => exact ⟨[], Or.inl (by rw [uniqueConsecutive])⟩
    | c :: t =>
        by_cases hbc : b = c
        · exact ⟨t, Or.inr ⟨c, by rw [uniqueConsecutive, if_pos hbc], rfl⟩⟩
        · exact ⟨uniqueConsecutive (c :: t),
            Or.inl (by rw [uniqueConsecutive, if_neg hbc])⟩
  have hfirst : ∀ (n : Nat) (b : Pos) (rest : List Pos), rest.length ≤ n →
      ∃ t, uniqueConsecutive (b :: rest) = b :: t := by
    intro n
    induction n with
    | zero =>
        intro b rest hlen
        match rest, hlen with
        | [], _ => exact ⟨[], by rw [uniqueConsecutive]⟩
    | succ n ih =>
        intro b rest hlen
        match rest with
        | [] => exact ⟨[], by rw [uniqueConsecutive]⟩
        | c :: t =>
            by_cases hbc : b = c
            · obtain ⟨t2, ht2⟩ := ih c t (by simp at hlen ⊢; omega)
              subst hbc
              exact ⟨t2, by rw [uniqueConsecutive, if_pos rfl]; exact ht2⟩
            · exact ⟨uniqueConsecutive (c :: t),
                by rw [uniqueConsecutive, if_neg hbc]⟩
  have key : ∀ (n : Nat) (l : List Pos), l.length ≤ n →
      List.Chain' (fun a b => a ≠ b) (uniqueConsecutive l) := by
    intro n
    induction n with
    | zero =>
        intro l hlen
        match l, hlen with
        | [], _ => rw [uniqueConsecutive]; exact List.chain'_nil
    | succ n ih =>
        intro l hlen
        match l with
        | [] => rw [uniqueConsecutive]; exact List.chain'_nil
        | [a] => rw [uniqueConsecutive]; exact List.chain'_singleton a
        | a :: b :: rest =>
            by_cases hab : a = b
            · rw [uniqueConsecutive, if_pos hab]
              exact ih (b :: rest) (by simp at hlen ⊢; omega)
            · rw [uniqueConsecutive, if_neg hab]
              obtain ⟨t, ht⟩ := hfirst rest.length b rest (Nat.le_refl _)
              rw [ht]
              have hch := ih (b :: rest) (by simp at hlen ⊢; omega)
              rw [ht] at hch
              exact List.chain'_cons.2 ⟨hab, hch⟩
  intro l
  exact key l.length l (Nat.le_refl _)

/-- C8 (counterexample): on the raw AST cell list `[A1, B1, A1]` — three
valid references with a non-adjacent duplicate — `Formula::GetReferencedCells`
returns the list unchanged, which contains the duplicate `A1`, refuting the
claim that the result never has duplicates. -/
theorem c8_counterexample :
    Formula.GetReferencedCells [posA1, posB1, posA1] =
      [posA1, posB1, posA1] ∧
    ¬ (Formula.GetReferencedCells [posA1, posB1, posA1]).Nodup := by
  constructor
  · decide
  · decide

/-- C8 (amended): `Formula::GetReferencedCells` returns only valid
positions, and removes only consecutive duplicates (no two ADJACENT
elements of the result are equal); duplicates that are not adjacent in the
AST order survive, because `std::unique` collapses adjacent runs only. -/
theorem c8_refs_valid_and_adjacent_dedup (astCells : List Pos) :
    (∀ p ∈ Formula.GetReferencedCells astCells, p.IsValid = true) ∧
    List.Chain' (fun a b => a ≠ b) (Formula.GetReferencedCells astCells) := by
  constructor
  · intro p hp
    unfold Formula.GetReferencedCells at hp
    exact (List.mem_filter.1 (uniqueConsecutive_subset _ _ hp)).2
  · exact uniqueConsecutive_chain _

/-- C5: the reference-resolution of `Formula::EvaluateCell` agrees, case by
case, with the `evaluate_cell` contract of the spec: invalid position
raises Ref; missing cell yields 0; a double value is returned; a string
value is parsed as one complete double with empty giving 0 and failures
raising Value; a FormulaError value is re-raised with the same kind. -/
theorem c5_evaluateCell_matches_spec (parseNum : String → Option Rat)
    (view : Pos → Option CVal) (p : Pos) :
    Formula.EvaluateCell parseNum view p = evaluateCellSpec parseNum view p := by
  unfold Formula.EvaluateCell evaluateCellSpec Formula.ConvertStringToDouble
  by_cases hv : p.IsValid = true
  · simp only [hv, Bool.not_true, Bool.false_eq_true, if_false, not_true,
      if_false]
    rcases view p with _ | ⟨v⟩
    · rfl
    · rcases v with st | d | e
      · dsimp only
        by_cases hs : st.isEmpty
        · rw [if_pos hs, if_pos ((String.isEmpty_iff st).1 hs)]
        · rw [if_neg hs,
            if_neg (fun h => hs ((String.isEmpty_iff st).2 h))]
      · rfl
      · rfl
  · have hv2 : p.IsValid = false := eq_false_of_ne_true hv
    simp only [hv2]
    rfl

/-- C6: evaluation-time failures surface as `FormulaError` VALUES, never as
exceptions: `Formula::Evaluate` catches the FormulaError raised by the AST
execution and returns it as its value, and `FormulaImpl::GetValue` maps the
two outcomes of `Evaluate` into the cell-value variant (number or error);
no exceptional channel remains in either result. -/
theorem c6_eval_errors_are_values (d : Rat) (e : FormulaError)
    (cache : Option FValue) :
    Formula.Evaluate (.ok d) = .num d ∧
    Formula.Evaluate (.error e) = .err e ∧
    (FormulaImpl.GetValue (.ok d) cache).1 = CVal.num d ∧
    (FormulaImpl.GetValue (.error e) cache).1 = CVal.err e :=
  ⟨rfl, rfl, rfl, rfl⟩

/-- C4 (the code as written): `FormulaImpl::GetValue` runs the AST
evaluation twice when the cache is absent (once to prime the cache, once
unconditionally for the returned value), and still runs it once — returning
the fresh value, not the cached one — when the cache is present; the spec
requires exactly one evaluation on a miss and zero on a hit. -/
theorem c4_getValue_eval_counts (exec : Except FormulaError Rat)
    (cv : FValue) :
    (FormulaImpl.GetValue exec none).2.2 = 2 ∧
    (FormulaImpl.GetValue exec (some cv)).2.2 = 1 := by
  rcases exec with d | e <;> exact ⟨rfl, rfl⟩

/-! ### Concrete executions of the demo scenarios -/

theorem exec_set_text_A1 :
    SheetSetCell parseDemo Sheet.empty posA1 "x" =
      .ok () ⟨[(posA1, some ⟨CellImpl.text "x", ∅, ∅⟩)]⟩ :=
  setCell_absent_noref parseDemo Sheet.empty posA1 "x" (.text "x")
    (by decide) rfl rfl rfl

theorem exec_clear_A1 :
    SheetClearCell parseDemo ⟨[(posA1, some ⟨CellImpl.text "x", ∅, ∅⟩)]⟩
      posA1 = .ok () ⟨[(posA1, none)]⟩ :=
  clearCell_live_isolated parseDemo ⟨[(posA1, some ⟨CellImpl.text "x", ∅, ∅⟩)]⟩
    posA1 ⟨CellImpl.text "x", ∅, ∅⟩ (by decide) rfl rfl rfl

theorem exec_set_after_clear_ub :
    SheetSetCell parseDemo ⟨[(posA1, none)]⟩ posA1 "y" = .ub :=
  sheet_setCell_nullentry parseDemo ⟨[(posA1, none)]⟩ posA1 "y"
    (by decide) rfl

theorem exec_set_selfref_A1 :
    SheetSetCell parseDemo Sheet.empty posA1 "=A1" =
      .exn .circularDependency ⟨[(posA1, some Cell.new)]⟩ :=
  setCell_absent_cycle parseDemo Sheet.empty posA1 "=A1"
    (.formula ⟨"A1", [posA1]⟩ none) (by decide) rfl rfl (by decide)

theorem exec_set_AAA1_zzz :
    SheetSetCell parseDemo Sheet.empty posAAA1 "=ZZZ9999" =
      .ok () ⟨[(posAAA1,
        some ⟨CellImpl.formula ⟨"ZZZ9999", [posZZZ9999]⟩ none, ∅, ∅⟩)]⟩ :=
  setCell_absent_noref parseDemo Sheet.empty posAAA1 "=ZZZ9999"
    (.formula ⟨"ZZZ9999", [posZZZ9999]⟩ none) (by decide) rfl rfl rfl

theorem exec_clear_AAA1 :
    SheetClearCell parseDemo
      ⟨[(posAAA1,
        some ⟨CellImpl.formula ⟨"ZZZ9999", [posZZZ9999]⟩ none, ∅, ∅⟩)]⟩
      posAAA1 = .ok () ⟨[(posAAA1, none)]⟩ :=
  clearCell_live_isolated parseDemo
    ⟨[(posAAA1,
      some ⟨CellImpl.formula ⟨"ZZZ9999", [posZZZ9999]⟩ none, ∅, ∅⟩)]⟩
    posAAA1 ⟨CellImpl.formula ⟨"ZZZ9999", [posZZZ9999]⟩ none, ∅, ∅⟩
    (by decide) rfl rfl rfl

/-! ### Remaining support lemmas for the claim theorems -/

theorem getCellPtr_append_fresh (s : Sheet) (pos : Pos)
    (hv : pos.IsValid = true) (hx : lookupCell s.cells pos = none) :
    Sheet.GetCellPtr ⟨s.cells ++ [(pos, some Cell.new)]⟩ pos =
      .ok (some Cell.new) := by
  have hl : lookupCell (⟨s.cells ++ [(pos, some Cell.new)]⟩ : Sheet).cells pos
      = some (some Cell.new) := by
    show lookupCell (s.cells ++ [(pos, some Cell.new)]) pos = _
    rw [lookupCell_append_absent _ _ _ _ hx, if_pos rfl]
  unfold Sheet.GetCellPtr
  rw [if_neg (by simp [hv]), hl]

theorem set_empty_never_exn (fuel : Nat) (parse : String → Option FormulaObj)
    (s : Sheet) (pos : Pos) (e : Exn) (s'' : Sheet) :
    Cell.Set fuel parse s pos "" ≠ .exn e s'' := by
  intro hexn
  rw [Cell.Set] at hexn
  simp only [createImpl_empty, wouldCycle_empty, Bool.false_eq_true,
    if_false] at hexn
  rcases hca : s.cellAt pos with _ | c0
  · rw [hca] at hexn; cases hexn
  · rw [hca] at hexn
    dsimp only at hexn
    set s3 : Sheet := (Cell.eraseFromIncoming
        (s.modifyCell pos (fun c => { c with impl := CellImpl.empty })) pos
        (posList c0.r_nodes)).modifyCell pos
        (fun c => { c with r_nodes := ∅ }) with hs3
    cases hud : Cell.UpdateDependencies fuel parse s3 pos
        CellImpl.empty.GetReferencedCells with
    | ok v s4 =>
        rw [hud] at hexn
        dsimp only at hexn
        rcases hin : Cell.InvalidateCacheRecursive (s4.cells.length + 2)
            s4 pos true with _ | s5 <;>
          · rw [hin] at hexn
            cases hexn
    | exn e1 st =>
        exact absurd hud
          (ud_never_exn _ fuel parse _ pos (getRefs_valid CellImpl.empty)
            e1 st)
    | ub => rw [hud] at hexn; cases hexn
    | hang => rw [hud] at hexn; cases hexn

/-! ### The claim theorems -/

/-- C1 (counterexample): `SetCell(A1, "=A1")` on the empty sheet raises
`CircularDependencyException`, yet afterwards `GetCell(A1)` is NOT absent —
the Empty cell materialized at the start of the failed call remains in the
map, refuting the claim that a cell freshly materialized during a failed
call is dropped. -/
theorem c1_counterexample :
    SheetSetCell parseDemo Sheet.empty posA1 "=A1" =
      .exn .circularDependency ⟨[(posA1, some Cell.new)]⟩ ∧
    Sheet.GetCellPtr Sheet.empty posA1 = .ok none ∧
    Sheet.GetCellPtr ⟨[(posA1, some Cell.new)]⟩ posA1 =
      .ok (some Cell.new) :=
  ⟨exec_set_selfref_A1, rfl, rfl⟩

/-- C1 (amended): when `Sheet::SetCell` raises, exactly one of three
guarded cases holds.  Invalid `pos`: validation raises
`InvalidPositionException` before touching the map, and the sheet equals
its pre-call state.  Valid `pos` already present in the map: `Set` raises
(`FormulaException` or `CircularDependencyException`) and the sheet equals
its pre-call state.  Valid `pos` absent from the map: `Set` raises, and the
sheet is the pre-call map EXTENDED with the fresh Empty cell (empty body,
empty adjacency) materialized before `Set` failed — it is NOT dropped, and
`GetCell(pos)` returns that cell rather than reporting absence. -/
theorem c1_set_exception_state (parse : String → Option FormulaObj)
    (s : Sheet) (pos : Pos) (text : String) (e : Exn) (s'' : Sheet)
    (hexn : SheetSetCell parse s pos text = .exn e s'') :
    (e = .invalidPosition ∧ pos.IsValid = false ∧ s'' = s) ∨
    ((e = .formulaError ∨ e = .circularDependency) ∧ pos.IsValid = true ∧
      ((lookupCell s.cells pos ≠ none ∧ s'' = s) ∨
       (lookupCell s.cells pos = none ∧
        s'' = ⟨s.cells ++ [(pos, some Cell.new)]⟩ ∧
        Sheet.GetCellPtr s'' pos = .ok (some Cell.new)))) := by
  rcases sheet_setCell_exn_char parse s pos text e s'' hexn with
    ⟨he, hs, hnv⟩ | ⟨he, hv, ⟨hne, hs⟩ | ⟨hx, hs⟩⟩
  · exact Or.inl ⟨he, hnv, hs⟩
  · exact Or.inr ⟨he, hv, Or.inl ⟨hne, hs⟩⟩
  · refine Or.inr ⟨he, hv, Or.inr ⟨hx, hs, ?_⟩⟩
    rw [hs]
    exact getCellPtr_append_fresh s pos hv hx

/-- C1 (witness): the amended statement at the failing `SetCell(A1, "=A1")`
call on the empty sheet. -/
theorem c1_witness :
    (Exn.circularDependency = Exn.invalidPosition ∧ posA1.IsValid = false ∧
      (⟨[(posA1, some Cell.new)]⟩ : Sheet) = Sheet.empty) ∨
    ((Exn.circularDependency = Exn.formulaError ∨
      Exn.circularDependency = Exn.circularDependency) ∧
     posA1.IsValid = true ∧
     ((lookupCell Sheet.empty.cells posA1 ≠ none ∧
       (⟨[(posA1, some Cell.new)]⟩ : Sheet) = Sheet.empty) ∨
      (lookupCell Sheet.empty.cells posA1 = none ∧
       (⟨[(posA1, some Cell.new)]⟩ : Sheet) =
         ⟨Sheet.empty.cells ++ [(posA1, some Cell.new)]⟩ ∧
       Sheet.GetCellPtr ⟨[(posA1, some Cell.new)]⟩ posA1 =
         .ok (some Cell.new)))) :=
  c1_set_exception_state parseDemo Sheet.empty posA1 "=A1"
    .circularDependency ⟨[(posA1, some Cell.new)]⟩ exec_set_selfref_A1

/-- C2: in every state reachable through the public Sheet surface the
outgoing-edge graph is acyclic; and a `SetCell` on a live cell whose new
body is detected cyclic by the depth-first traversal raises
`CircularDependencyException` with the sheet — in particular the edited
cell — exactly unchanged. -/
theorem c2_acyclic_and_cycle_raises (parse : String → Option FormulaObj)
    (s : Sheet) (h : Reachable parse s) :
    Acyclic s ∧
    (∀ pos text impl c, pos.IsValid = true →
      lookupCell s.cells pos = some (some c) →
      Cell.CreateImpl parse text = .ok impl →
      Cell.WouldIntroduceCircularDependency s pos impl = true →
      SheetSetCell parse s pos text = .exn .circularDependency s) := by
  refine ⟨(inv_reachable parse s h).2.2, ?_⟩
  intro pos text impl c hv hx hci hwc
  rw [sheet_setCell_live parse s pos text c hv hx, Cell.Set, hci]
  dsimp only
  rw [hwc, if_pos rfl]

/-- C2 (witness): the statement at the concrete reachable state left by the
failed `SetCell(A1, "=A1")` call on the empty sheet. -/
theorem c2_witness :
    Acyclic (⟨[(posA1, some Cell.new)]⟩ : Sheet) ∧
    (∀ pos text impl c, pos.IsValid = true →
      lookupCell [(posA1, some Cell.new)] pos = some (some c) →
      Cell.CreateImpl parseDemo text = .ok impl →
      Cell.WouldIntroduceCircularDependency ⟨[(posA1, some Cell.new)]⟩ pos
        impl = true →
      SheetSetCell parseDemo ⟨[(posA1, some Cell.new)]⟩ pos text =
        .exn .circularDependency ⟨[(posA1, some Cell.new)]⟩) :=
  c2_acyclic_and_cycle_raises parseDemo ⟨[(posA1, some Cell.new)]⟩
    (Reachable.set_exn Reachable.init exec_set_selfref_A1)

/-- C3 (the code as written): `SetCell(A1, "x")` then `ClearCell(A1)`
leaves a map entry at A1 holding a null pointer (`reset()` nulls the
`unique_ptr` without erasing the entry); the next `SetCell(A1, "y")` finds
the entry, skips materialization, and dereferences the null pointer
(`cells_.at(pos)->Set(...)`) — undefined behaviour instead of the
specified edit. -/
theorem c3_set_after_clear_null_deref :
    SheetSetCell parseDemo Sheet.empty posA1 "x" =
      .ok () ⟨[(posA1, some ⟨CellImpl.text "x", ∅, ∅⟩)]⟩ ∧
    SheetClearCell parseDemo ⟨[(posA1, some ⟨CellImpl.text "x", ∅, ∅⟩)]⟩
      posA1 = .ok () ⟨[(posA1, none)]⟩ ∧
    lookupCell [(posA1, (none : Option Cell))] posA1 = some none ∧
    SheetSetCell parseDemo ⟨[(posA1, none)]⟩ posA1 "y" = .ub :=
  ⟨exec_set_text_A1, exec_clear_A1, rfl, exec_set_after_clear_ub⟩

/-- C7: in every state reachable through the public Sheet surface the
forward and reverse adjacency sets are exact mirrors: `d ∈ c.outgoing` iff
`c ∈ d.incoming`, for all cells `c`, `d`. -/
theorem c7_mirror_after_ops (parse : String → Option FormulaObj) (s : Sheet)
    (h : Reachable parse s) : MirrorInv s :=
  (inv_reachable parse s h).2.1

/-- C7 (witness): the mirror invariant at the concrete state reached by
`SetCell(A1, "x")` on the empty sheet. -/
theorem c7_witness :
    MirrorInv ⟨[(posA1, some ⟨CellImpl.text "x", ∅, ∅⟩)]⟩ :=
  c7_mirror_after_ops parseDemo ⟨[(posA1, some ⟨CellImpl.text "x", ∅, ∅⟩)]⟩
    (Reachable.set_ok Reachable.init exec_set_text_A1)

/-- C9 (counterexample): after `SetCell(AAA1, "=ZZZ9999")` no cell is ever
materialized at ZZZ9999 — the position is invalid (col 18277 ≥ 16384), so
`GetReferencedCells` filters it out before the dependency update — and
after `ClearCell(AAA1)` the query `GetCell(ZZZ9999)` raises
`InvalidPositionException` rather than reporting an absent (dropped)
cell. -/
theorem c9_counterexample :
    SheetSetCell parseDemo Sheet.empty posAAA1 "=ZZZ9999" =
      .ok () ⟨[(posAAA1,
        some ⟨CellImpl.formula ⟨"ZZZ9999", [posZZZ9999]⟩ none, ∅, ∅⟩)]⟩ ∧
    posZZZ9999.IsValid = false ∧
    lookupCell
      [(posAAA1,
        some (⟨CellImpl.formula ⟨"ZZZ9999", [posZZZ9999]⟩ none, ∅, ∅⟩ :
          Cell))] posZZZ9999 = none ∧
    Sheet.GetCellPtr ⟨[(posAAA1, none)]⟩ posZZZ9999 =
      .error .invalidPosition :=
  ⟨exec_set_AAA1_zzz, by decide, rfl, rfl⟩

/-- C9 (amended): `SetCell(AAA1, "=ZZZ9999")` then `ClearCell(AAA1)` gives
printable size (0, 0); the invalid reference ZZZ9999 is filtered out of the
reference set, so no cell is ever materialized there (the map never holds a
key ZZZ9999), and `GetCell(ZZZ9999)` raises `InvalidPositionException`. -/
theorem c9_zzz_scenario_amended :
    SheetSetCell parseDemo Sheet.empty posAAA1 "=ZZZ9999" =
      .ok () ⟨[(posAAA1,
        some ⟨CellImpl.formula ⟨"ZZZ9999", [posZZZ9999]⟩ none, ∅, ∅⟩)]⟩ ∧
    SheetClearCell parseDemo
      ⟨[(posAAA1,
        some ⟨CellImpl.formula ⟨"ZZZ9999", [posZZZ9999]⟩ none, ∅, ∅⟩)]⟩
      posAAA1 = .ok () ⟨[(posAAA1, none)]⟩ ∧
    Sheet.GetPrintableSize ⟨[(posAAA1, none)]⟩ = ⟨0, 0⟩ ∧
    lookupCell [(posAAA1, (none : Option Cell))] posZZZ9999 = none ∧
    Sheet.GetCellPtr ⟨[(posAAA1, none)]⟩ posZZZ9999 =
      .error .invalidPosition :=
  ⟨exec_set_AAA1_zzz, exec_clear_AAA1, rfl, rfl, rfl⟩

/-- C10: for EVERY sheet state and position, `ClearCell` — `Set("")` on the
cell — never raises `FormulaException` or `CircularDependencyException`:
the empty text classifies as an Empty body, whose reference set is empty,
the cycle check on it returns false, and the only exception any `ClearCell`
call can raise is `InvalidPositionException`. -/
theorem c10_clear_never_raises_formula_or_cycle
    (parse : String → Option FormulaObj) (s : Sheet) (pos : Pos) :
    Cell.CreateImpl parse "" = .ok .empty ∧
    CellImpl.empty.GetReferencedCells = [] ∧
    Cell.WouldIntroduceCircularDependency s pos .empty = false ∧
    (∀ e s'', SheetClearCell parse s pos = .exn e s'' →
      e = .invalidPosition) := by
  refine ⟨createImpl_empty parse, rfl, wouldCycle_empty s pos, ?_⟩
  intro e s'' hexn
  by_cases hv : pos.IsValid = true
  · exfalso
    rcases hx : lookupCell s.cells pos with _ | ⟨_ | c⟩
    · rw [sheet_clearCell_dead parse s pos hv (Or.inl hx)] at hexn
      cases hexn
    · rw [sheet_clearCell_dead parse s pos hv (Or.inr hx)] at hexn
      cases hexn
    · rw [sheet_clearCell_live parse s pos c hv hx] at hexn
      cases hset : Cell.Set 1 parse s pos "" with
      | ok v s2 =>
          rw [hset] at hexn
          dsimp only at hexn
          rcases hx2 : lookupCell s2.cells pos with _ | ⟨_ | c2⟩
          · rw [hx2] at hexn; cases hexn
          · rw [hx2] at hexn; cases hexn
          · rw [hx2] at hexn
            dsimp only at hexn
            by_cases hlz : c2.l_nodes = ∅
            · rw [if_pos hlz] at hexn; cases hexn
            · rw [if_neg hlz] at hexn; cases hexn
      | exn e1 st => exact set_empty_never_exn 1 parse s pos e1 st hset
      | ub => rw [hset] at hexn; cases hexn
      | hang => rw [hset] at hexn; cases hexn
  · rw [sheet_clearCell_invalid parse s pos hv] at hexn
    cases hexn
    rfl
